import Mathlib

/-!
# Verification of the Blazor browser renderer (`BrowserRenderer.ts`)

A shallow embedding of `src/Microsoft.AspNetCore.Blazor.Browser.JS/src/Rendering/BrowserRenderer.ts`.

The live DOM is modelled as a pure tree of nodes carrying unique numeric
identities (JS object references are modelled by these ids, which survive
moves of the node inside the tree).  The component location registry maps
component ids to node ids.  Fallible DOM operations (out-of-range child
access, `appendChild` on a text node, …) are modelled in `Except`.
Recursions that the source drives by mutable loop indices are fuelled;
every theorem about a run takes success of the fuelled computation as its
hypothesis.

The frame table and edit script readers (`RenderTreeFrame.ts`,
`RenderTreeEdit.ts`) are external collaborators of this core and are not
part of the source under verification; the `Frame` and `Edit` variants
below are modelled from the spec's data model (§3), with `subtreeLength`
of a leaf frame equal to 1 (glossary: the count includes the frame itself).
Event-listener closures are modelled by freshly allocated identifiers; the
event-dispatch bridge they would call is out of scope.
-/

/-- Live properties of a DOM element beyond its child list: string
attributes, the special `checked`/`value` live properties, the
`_blazorClickListener`/`_blazorChangeListener`/`_blazorKeypressListener`
expando fields remembering the last attached listener, and the multiset of
listeners currently registered via `addEventListener` for each of the three
interactive events. -/
structure ElemProps where
  attrs : List (String × String)
  checked : Bool
  value : Option String
  blazorClickListener : Option Nat
  blazorChangeListener : Option Nat
  blazorKeypressListener : Option Nat
  clickListeners : List Nat
  changeListeners : List Nat
  keypressListeners : List Nat
deriving Repr, DecidableEq

/-- Props of a freshly created element. -/
def emptyProps : ElemProps :=
  { attrs := [], checked := false, value := none,
    blazorClickListener := none, blazorChangeListener := none,
    blazorKeypressListener := none,
    clickListeners := [], changeListeners := [], keypressListeners := [] }

/-- A live DOM node.  The first field of every constructor is the node's
identity (standing for the JS object reference). -/
inductive DomNode where
  | element (id : Nat) (tag : String) (props : ElemProps) (children : List DomNode)
  | text (id : Nat) (content : String)
  | comment (id : Nat) (content : String)
deriving Repr

/-- The node's identity. -/
def DomNode.nodeId : DomNode → Nat
  | .element i _ _ _ => i
  | .text i _ => i
  | .comment i _ => i

/-- ASCII uppercasing of a tag name (kernel-reducible form of `String.toUpper`). -/
def strUpper (s : String) : String := ⟨s.data.map Char.toUpper⟩

/-- `document.createElement(tag)`: HTML `tagName` is reported uppercased. -/
def createElement (id : Nat) (tag : String) : DomNode :=
  .element id (strUpper tag) emptyProps []

/-- Errors surfaced by the renderer (thrown exceptions in the source, plus
the model's fuel exhaustion and modelling-boundary conditions). -/
inductive RErr where
  | unknownComponent (componentId : Nat)
  | badFrameIndex
  | badEditIndex
  | misplacedAttributeFrame
  | notAnElement
  | notAText
  | missingNode
  | stepOutOfRoot
  | notAnAttribute
  | outOfFuel
deriving Repr, DecidableEq

/-- One entry of the reference-frame table.
Modelled from the spec: `RenderTreeFrame.ts` (the frame table reader) is an
external collaborator not present under `src/`; the variants and their
fields follow spec §3. -/
inductive Frame where
  | element (elementName : String) (subtreeLength : Nat)
  | text (textContent : String)
  | attribute (attributeName : String) (attributeValue : Option String) (attributeEventHandlerId : Nat)
  | component (componentId : Nat)
  | region (subtreeLength : Nat)
deriving Repr, DecidableEq

/-- `renderTreeFrame.subtreeLength`.
Modelled from the spec: a frame's subtree length is the count of frame-table
entries including the frame itself (spec glossary), hence 1 for leaf frames. -/
def Frame.subtreeLength : Frame → Nat
  | .element _ n => n
  | .region n => n
  | _ => 1

/-- One entry of the edit script.
Modelled from the spec: `RenderTreeEdit.ts` (the edit script reader) is an
external collaborator not present under `src/`; the variants and their
fields follow spec §3. -/
inductive Edit where
  | prependFrame (siblingIndex : Nat) (newTreeIndex : Nat)
  | removeFrame (siblingIndex : Nat)
  | setAttribute (siblingIndex : Nat) (newTreeIndex : Nat)
  | removeAttribute (siblingIndex : Nat) (attributeName : String)
  | updateText (siblingIndex : Nat) (newTreeIndex : Nat)
  | stepIn (siblingIndex : Nat)
  | stepOut
deriving Repr, DecidableEq

/-! ## Component location registry (`childComponentLocations`) -/

/-- Lookup in the registry (reading `this.childComponentLocations[id]`). -/
def lookupLoc : List (Nat × Nat) → Nat → Option Nat
  | [], _ => none
  | (c, n) :: rest, cid => if c = cid then some n else lookupLoc rest cid

/-- Remove every binding of `cid` (the JS `delete` statement). -/
def unbindLoc : List (Nat × Nat) → Nat → List (Nat × Nat)
  | [], _ => []
  | (c, n) :: rest, cid =>
    if c = cid then unbindLoc rest cid else (c, n) :: unbindLoc rest cid

/-- Assign `this.childComponentLocations[cid] = node` (keyed store update). -/
def bindLoc (locs : List (Nat × Nat)) (cid nid : Nat) : List (Nat × Nat) :=
  (cid, nid) :: unbindLoc locs cid

/-- Renderer state shared across the DOM tree: the component location
registry and the allocator for fresh node/listener identities. -/
structure RState where
  locations : List (Nat × Nat)
  nextId : Nat
deriving Repr, DecidableEq

/-! ## Free functions at the bottom of the file -/

/-- `insertNodeIntoDOM` (source lines 291–297): append when the index is
past the end, otherwise insert before the existing child at that index. -/
def insertNodeIntoDOM (node : DomNode) (children : List DomNode) (childIndex : Nat) :
    List DomNode :=
  if childIndex ≥ children.length then
    children ++ [node]
  else
    children.take childIndex ++ node :: children.drop childIndex

/-- `removeNodeFromDOM` (source lines 299–301): `removeChild` of
`childNodes[childIndex]`; on an undefined child the DOM call throws. -/
def removeNodeFromDOM (children : List DomNode) (childIndex : Nat) :
    Except RErr (List DomNode) :=
  if childIndex < children.length then
    .ok (children.eraseIdx childIndex)
  else
    .error .missingNode

/-- `isCheckbox` (source lines 287–289). -/
def getAttr (attrs : List (String × String)) (name : String) : Option String :=
  (attrs.find? (fun p => p.1 = name)).map (fun p => p.2)

def isCheckbox (tag : String) (attrs : List (String × String)) : Bool :=
  tag = "INPUT" && getAttr attrs "type" = some "checkbox"

/-- `element.setAttribute`: replace the existing attribute of that name or
add it; a `null` value is stringified by the DOM. -/
def setAttr (attrs : List (String × String)) (name value : String) :
    List (String × String) :=
  if attrs.any (fun p => p.1 = name) then
    attrs.map (fun p => if p.1 = name then (name, value) else p)
  else
    attrs ++ [(name, value)]

/-- `element.removeAttribute`. -/
def removeAttr (attrs : List (String × String)) (name : String) :
    List (String × String) :=
  attrs.filter (fun p => ¬(p.1 = name))

/-! ## Attribute/Event binder -/

/-- `tryApplyValueProperty` (source lines 252–267): `INPUT`/`SELECT` get
special treatment of the value-carrying property; checkbox inputs receive
`checked = (value === 'True')`, every other such control receives the raw
string as its live `value` property.  Returns `none` when the element type
has no special handling. -/
def tryApplyValueProperty (tag : String) (props : ElemProps) (value : Option String) :
    Option ElemProps :=
  match tag with
  | "INPUT" | "SELECT" =>
    if isCheckbox tag props.attrs then
      some { props with checked := value = some "True" }
    else
      some { props with value := value }
  | _ => none

/-- `applyAttribute` (source lines 197–250), acting on the target element's
props.  Listener closures are modelled by fresh identifiers drawn from
`st.nextId`; `removeEventListener` with the remembered listener removes
exactly that registration (`removeEventListener(type, undefined)` is a
no-op), `addEventListener` appends the new one. -/
def applyAttribute (st : RState) (tag : String) (props : ElemProps)
    (attributeFrame : Frame) : Except RErr (RState × ElemProps) :=
  match attributeFrame with
  | .attribute attributeName value _eventHandlerId =>
    if attributeName = "value" then
      match tryApplyValueProperty tag props value with
      | some props' => .ok (st, props')
      | none =>
        -- no special handling: fall through to the plain-attribute default
        .ok (st, { props with attrs := setAttr props.attrs attributeName (value.getD "null") })
    else if attributeName = "onclick" then
      let removed := match props.blazorClickListener with
        | none => props.clickListeners
        | some f => props.clickListeners.erase f
      let listener := st.nextId
      .ok ({ st with nextId := st.nextId + 1 },
        { props with blazorClickListener := some listener,
                     clickListeners := removed ++ [listener] })
    else if attributeName = "onchange" then
      let removed := match props.blazorChangeListener with
        | none => props.changeListeners
        | some f => props.changeListeners.erase f
      let listener := st.nextId
      .ok ({ st with nextId := st.nextId + 1 },
        { props with blazorChangeListener := some listener,
                     changeListeners := removed ++ [listener] })
    else if attributeName = "onkeypress" then
      let removed := match props.blazorKeypressListener with
        | none => props.keypressListeners
        | some f => props.keypressListeners.erase f
      let listener := st.nextId
      .ok ({ st with nextId := st.nextId + 1 },
        { props with blazorKeypressListener := some listener,
                     keypressListeners := removed ++ [listener] })
    else
      .ok (st, { props with attrs := setAttr props.attrs attributeName (value.getD "null") })
  | _ => .error .notAnAttribute

/-! ## Dispose and marker insertion -/

/-- `insertComponentMarker` (source lines 185–189), at the level of the
parent's child list: create a `blazor-component` comment node, insert it,
and bind the component id to it. -/
def insertComponentMarker (st : RState) (componentId : Nat)
    (children : List DomNode) (childIndex : Nat) : RState × List DomNode :=
  let marker := DomNode.comment st.nextId "blazor-component"
  ({ st with nextId := st.nextId + 1,
             locations := bindLoc st.locations componentId st.nextId },
   insertNodeIntoDOM marker children childIndex)

/-- `disposeComponent` (source lines 60–62): delete the registry entry.
The JS `delete` of an absent key is a silent no-op; nothing is thrown and
the live tree is untouched. -/
def disposeComponent (root : DomNode) (st : RState) (componentId : Nat) :
    DomNode × RState :=
  (root, { st with locations := unbindLoc st.locations componentId })

/-! ## Subtree materialization (`insertFrame`, `insertElement`, `insertFrameRange`) -/

mutual

/-- Fuelled mutual embedding of source lines 136–176 and 269–284.

`insertFrame` dispatches on the frame variant; `insertElementFrames` is the
attribute-scanning loop of `insertElement` (lines 165–175), collecting the
new element's props and children before the completed element is placed in
the parent's child list (the source inserts the still-empty element first
and then mutates it in place; the fresh element is unaliased, so building
it before insertion is observationally the same); `insertFrameRange` is the
linear range scan (lines 269–284), returning the total number of nodes it
contributed at this level. -/
def insertFrame : Nat → Nat → RState → List DomNode → Nat → List Frame → Nat →
    Except RErr (RState × List DomNode × Nat)
  | 0, _, _, _, _, _, _ => .error .outOfFuel
  | fuel + 1, componentId, st, children, childIndex, frames, frameIndex =>
    match frames[frameIndex]? with
    | none => .error .badFrameIndex
    | some f =>
      match f with
      | .element tag len =>
        -- insertElement, lines 158–176
        let elemId := st.nextId
        let tagName := strUpper tag
        match insertElementFrames fuel componentId { st with nextId := st.nextId + 1 }
            tagName emptyProps frames (frameIndex + 1) (frameIndex + len) with
        | .error e => .error e
        | .ok (st', props, kids) =>
          .ok (st',
            insertNodeIntoDOM (.element elemId tagName props kids) children childIndex, 1)
      | .text s =>
        -- insertText, lines 191–195
        .ok ({ st with nextId := st.nextId + 1 },
          insertNodeIntoDOM (.text st.nextId s) children childIndex, 1)
      | .attribute _ _ _ => .error .misplacedAttributeFrame
      | .component childComponentId =>
        -- insertComponent, lines 178–183
        let (st', children') := insertComponentMarker st childComponentId children childIndex
        .ok (st', children', 1)
      | .region len =>
        insertFrameRange fuel componentId st children childIndex frames
          (frameIndex + 1) (frameIndex + len)
  termination_by structural fuel => fuel

def insertElementFrames : Nat → Nat → RState → String → ElemProps → List Frame → Nat → Nat →
    Except RErr (RState × ElemProps × List DomNode)
  | 0, _, _, _, _, _, _, _ => .error .outOfFuel
  | fuel + 1, componentId, st, tagName, props, frames, descendantIndex, endIndexExcl =>
    if descendantIndex < endIndexExcl then
      match frames[descendantIndex]? with
      | none => .error .badFrameIndex
      | some descendantFrame =>
        match descendantFrame with
        | .attribute a v h =>
          match applyAttribute st tagName props (.attribute a v h) with
          | .error e => .error e
          | .ok (st', props') =>
            insertElementFrames fuel componentId st' tagName props' frames
              (descendantIndex + 1) endIndexExcl
        | _ =>
          -- first non-attribute child: insert the remnants recursively and stop
          match insertFrameRange fuel componentId st [] 0 frames
              descendantIndex endIndexExcl with
          | .error e => .error e
          | .ok (st', kids, _) => .ok (st', props, kids)
    else
      .ok (st, props, [])
  termination_by structural fuel => fuel

def insertFrameRange : Nat → Nat → RState → List DomNode → Nat → List Frame → Nat → Nat →
    Except RErr (RState × List DomNode × Nat)
  | 0, _, _, _, _, _, _, _ => .error .outOfFuel
  | fuel + 1, componentId, st, children, childIndex, frames, index, endIndexExcl =>
    if index < endIndexExcl then
      match frames[index]? with
      | none => .error .badFrameIndex
      | some frame =>
        match insertFrame fuel componentId st children childIndex frames index with
        | .error e => .error e
        | .ok (st', children', numChildrenInserted) =>
          -- skip over any descendants: they were dealt with recursively
          let subtreeLength := frame.subtreeLength
          let index' := if subtreeLength > 1 then index + subtreeLength else index + 1
          match insertFrameRange fuel componentId st' children'
              (childIndex + numChildrenInserted) frames index' endIndexExcl with
          | .error e => .error e
          | .ok (st'', children'', m) => .ok (st'', children'', numChildrenInserted + m)
    else
      .ok (st, children, 0)
  termination_by structural fuel => fuel

end

/-- The chain of frame indices that the range scan of `insertFrameRange`
visits at its own level between `index` and `endIndexExcl`: after a frame
the cursor advances by the frame's full subtree length (by one when the
subtree length is not larger than one). -/
def levelIndices (frames : List Frame) : Nat → Nat → Nat → List Nat
  | _, _, 0 => []
  | index, endIndexExcl, fuel + 1 =>
    if index < endIndexExcl then
      match frames[index]? with
      | none => []
      | some f =>
        index ::
          levelIndices frames
            (if f.subtreeLength > 1 then index + f.subtreeLength else index + 1)
            endIndexExcl fuel
    else []

/-- Sequential materialization of the frames at an explicit list of
indices (the per-level calls `insertFrameRange` makes, with the same fuel
discipline). -/
def insertFrameSeq (componentId : Nat) (frames : List Frame) :
    Nat → RState → List DomNode → Nat → List Nat →
    Except RErr (RState × List DomNode × Nat)
  | _, st, children, _, [] => .ok (st, children, 0)
  | 0, _, _, _, _ :: _ => .error .outOfFuel
  | fuel + 1, st, children, childIndex, k :: ks =>
    match insertFrame fuel componentId st children childIndex frames k with
    | .error e => .error e
    | .ok (st', children', n) =>
      match insertFrameSeq componentId frames fuel st' children' (childIndex + n) ks with
      | .error e => .error e
      | .ok (st'', children'', m) => .ok (st'', children'', n + m)

/-! ## The live tree as a whole: node lookup by identity and by path -/

/-- `childNodes` of a node; text and comment nodes have no child list that
the renderer could mutate. -/
def DomNode.childrenOf? : DomNode → Option (List DomNode)
  | .element _ _ _ cs => some cs
  | _ => none

mutual

/-- Locate the node with identity `nid` (the JS object reference held by
the registry) inside a tree, as the path of child indices leading to it. -/
def findPath (nid : Nat) : DomNode → Option (List Nat)
  | .text i _ => if i = nid then some [] else none
  | .comment i _ => if i = nid then some [] else none
  | .element i _ _ cs => if i = nid then some [] else findPathList nid cs 0

def findPathList (nid : Nat) : List DomNode → Nat → Option (List Nat)
  | [], _ => none
  | c :: cs, k =>
    match findPath nid c with
    | some p => some (k :: p)
    | none => findPathList nid cs (k + 1)

end

/-- The node reached from `root` by a path of child indices. -/
def getNodeAt : DomNode → List Nat → Option DomNode
  | n, [] => some n
  | n, i :: p =>
    match n with
    | .element _ _ _ cs =>
      match cs[i]? with
      | some c => getNodeAt c p
      | none => none
    | _ => none

/-- Replace the node at a path. -/
def setNodeAt : DomNode → List Nat → DomNode → Option DomNode
  | _, [], n' => some n'
  | n, i :: p, n' =>
    match n with
    | .element id tag pr cs =>
      match cs[i]? with
      | some c => (setNodeAt c p n').map (fun c' => .element id tag pr (cs.set i c'))
      | none => none
    | _ => none

/-- `childNodes` of the node at a path. -/
def getChildrenAt (root : DomNode) (path : List Nat) : Option (List DomNode) :=
  (getNodeAt root path).bind DomNode.childrenOf?

/-- Replace the child list of the element at a path. -/
def setChildrenAt (root : DomNode) (path : List Nat) (cs : List DomNode) :
    Option DomNode :=
  match getNodeAt root path with
  | some (.element id tag pr _) => setNodeAt root path (.element id tag pr cs)
  | _ => none

/-! ## The edit-script walk (`applyEdits`, source lines 64–134) -/

/-- The walk's cursor and accumulators: the loop-local variables of
`applyEdits` together with the shared renderer state and the tree rooted at
the component's parent container (`parent` of the source is the node at
`path` inside `root`; `stepIn`/`stepOut` move the path down and up). -/
structure WalkState where
  st : RState
  root : DomNode
  path : List Nat
  currentDepth : Int
  childIndexAtCurrentDepth : Nat
  topLevelNodeCountChange : Int
  editIndex : Nat
deriving Repr

/-- One iteration of the `applyEdits` loop body (source lines 69–131):
interpret the edit at `editIndex` against the cursor.  `childIndex` is the
`childIndex` argument of `applyEdits`, needed by `stepOut`. -/
def applyEditStep (fuel componentId childIndex : Nat) (edits : List Edit)
    (frames : List Frame) (s : WalkState) : Except RErr WalkState :=
  match edits[s.editIndex]? with
  | none => .error .badEditIndex
  | some edit =>
    match edit with
    | .prependFrame siblingIndex frameIndex =>
      match getChildrenAt s.root s.path with
      | none => .error .notAnElement
      | some cs =>
        match insertFrame fuel componentId s.st cs
            (s.childIndexAtCurrentDepth + siblingIndex) frames frameIndex with
        | .error e => .error e
        | .ok (st', cs', numNodesInserted) =>
          match setChildrenAt s.root s.path cs' with
          | none => .error .notAnElement
          | some root' =>
            .ok { s with
                  st := st', root := root',
                  topLevelNodeCountChange :=
                    if s.currentDepth = 0 then
                      s.topLevelNodeCountChange + numNodesInserted
                    else s.topLevelNodeCountChange,
                  editIndex := s.editIndex + 1 }
    | .removeFrame siblingIndex =>
      match getChildrenAt s.root s.path with
      | none => .error .notAnElement
      | some cs =>
        match removeNodeFromDOM cs (s.childIndexAtCurrentDepth + siblingIndex) with
        | .error e => .error e
        | .ok cs' =>
          match setChildrenAt s.root s.path cs' with
          | none => .error .notAnElement
          | some root' =>
            .ok { s with
                  root := root',
                  topLevelNodeCountChange :=
                    if s.currentDepth = 0 then
                      s.topLevelNodeCountChange - 1
                    else s.topLevelNodeCountChange,
                  editIndex := s.editIndex + 1 }
    | .setAttribute siblingIndex frameIndex =>
      match getChildrenAt s.root s.path with
      | none => .error .notAnElement
      | some cs =>
        match cs[s.childIndexAtCurrentDepth + siblingIndex]? with
        | some (.element id tag pr kids) =>
          match frames[frameIndex]? with
          | none => .error .badFrameIndex
          | some frame =>
            match applyAttribute s.st tag pr frame with
            | .error e => .error e
            | .ok (st', pr') =>
              match setChildrenAt s.root s.path
                  (cs.set (s.childIndexAtCurrentDepth + siblingIndex)
                    (.element id tag pr' kids)) with
              | none => .error .notAnElement
              | some root' =>
                .ok { s with st := st', root := root', editIndex := s.editIndex + 1 }
        | _ => .error .notAnElement
    | .removeAttribute siblingIndex name =>
      match getChildrenAt s.root s.path with
      | none => .error .notAnElement
      | some cs =>
        match cs[s.childIndexAtCurrentDepth + siblingIndex]? with
        | some (.element id tag pr kids) =>
          match setChildrenAt s.root s.path
              (cs.set (s.childIndexAtCurrentDepth + siblingIndex)
                (.element id tag { pr with attrs := removeAttr pr.attrs name } kids)) with
          | none => .error .notAnElement
          | some root' => .ok { s with root := root', editIndex := s.editIndex + 1 }
        | _ => .error .notAnElement
    | .updateText siblingIndex frameIndex =>
      match getChildrenAt s.root s.path with
      | none => .error .notAnElement
      | some cs =>
        match cs[s.childIndexAtCurrentDepth + siblingIndex]? with
        | some (.text id _) =>
          match frames[frameIndex]? with
          | some (.text textContent) =>
            match setChildrenAt s.root s.path
                (cs.set (s.childIndexAtCurrentDepth + siblingIndex)
                  (.text id textContent)) with
            | none => .error .notAnElement
            | some root' => .ok { s with root := root', editIndex := s.editIndex + 1 }
          | _ => .error .notAText
        | _ => .error .notAText
    | .stepIn siblingIndex =>
      .ok { s with
            path := s.path ++ [s.childIndexAtCurrentDepth + siblingIndex],
            currentDepth := s.currentDepth + 1,
            childIndexAtCurrentDepth := 0,
            editIndex := s.editIndex + 1 }
    | .stepOut =>
      match s.path with
      | [] => .error .stepOutOfRoot
      | _ :: _ =>
        .ok { s with
              path := s.path.dropLast,
              currentDepth := s.currentDepth - 1,
              childIndexAtCurrentDepth := if s.currentDepth - 1 = 0 then childIndex else 0,
              editIndex := s.editIndex + 1 }

/-- The `applyEdits` loop: `count` remaining iterations. -/
def applyEditsLoop (fuel componentId childIndex : Nat) (edits : List Edit)
    (frames : List Frame) : Nat → WalkState → Except RErr WalkState
  | 0, s => .ok s
  | count + 1, s =>
    match applyEditStep fuel componentId childIndex edits frames s with
    | .error e => .error e
    | .ok s' => applyEditsLoop fuel componentId childIndex edits frames count s'

/-- `applyEdits` (source lines 64–134): walk `editsLength` edits starting
at `editsOffset` against the tree rooted at the component's parent
container, returning the new renderer state, the new tree, and
`topLevelNodeCountChange`. -/
def applyEdits (fuel componentId : Nat) (st : RState) (parent : DomNode)
    (childIndex : Nat) (edits : List Edit) (editsOffset editsLength : Nat)
    (frames : List Frame) : Except RErr (RState × DomNode × Int) :=
  match applyEditsLoop fuel componentId childIndex edits frames editsLength
      { st := st, root := parent, path := [], currentDepth := 0,
        childIndexAtCurrentDepth := childIndex, topLevelNodeCountChange := 0,
        editIndex := editsOffset } with
  | .error e => .error e
  | .ok s => .ok (s.st, s.root, s.topLevelNodeCountChange)

/-! ## Top-level component update (`updateComponent`, source lines 18–58) -/

/-- The wrapper-filling loop of `updateComponent` (source lines 52–54):
`count` times, `wrapper.appendChild(parent.childNodes[childIndex + 1])` —
the wrapper sits at `childIndex`, `appendChild` detaches the node at
`childIndex + 1` from the parent and appends it to the wrapper's children;
an undefined child makes `appendChild` throw. -/
def moveIntoWrapper : Nat → List DomNode → Nat → Except RErr (List DomNode)
  | 0, children, _ => .ok children
  | count + 1, children, childIndex =>
    match children[childIndex + 1]? with
    | none => .error .missingNode
    | some nd =>
      let children' := children.eraseIdx (childIndex + 1)
      match children'[childIndex]? with
      | some (.element id tag pr kids) =>
        moveIntoWrapper count
          (children'.set childIndex (.element id tag pr (kids ++ [nd]))) childIndex
      | _ => .error .notAnElement

/-- The tail of `updateComponent` (source lines 44–57) after the anchor is
resolved: run the edit walk against the parent container at `parentPath`,
then re-record the component's location from the resulting top-level node
count — keep the wrapper, record a bare node, or synthesize a new wrapper
and move the top-level nodes into it. -/
def updateComponentFinalize (fuel componentId : Nat) (st : RState) (root₁ : DomNode)
    (parentPath : List Nat) (childIndex nodeCount : Nat) (isWrapped : Bool)
    (edits : List Edit) (editsOffset editsLength : Nat) (frames : List Frame) :
    Except RErr (DomNode × RState) :=
  match getNodeAt root₁ parentPath with
  | none => .error .missingNode
  | some parent =>
    match applyEdits fuel componentId st parent childIndex edits
        editsOffset editsLength frames with
    | .error e => .error e
    | .ok (st₂, parent', delta) =>
      match setNodeAt root₁ parentPath parent' with
      | none => .error .missingNode
      | some root₂ =>
        let newCount : Int := (nodeCount : Int) + delta
        if isWrapped then
          .ok (root₂, st₂)
        else if newCount = 1 then
          match parent'.childrenOf? with
          | none => .error .notAnElement
          | some cs' =>
            match cs'[childIndex]? with
            | none => .error .missingNode
            | some nd =>
              .ok (root₂,
                { st₂ with locations := bindLoc st₂.locations componentId nd.nodeId })
        else
          match parent'.childrenOf? with
          | none => .error .notAnElement
          | some cs' =>
            let wrapperId := st₂.nextId
            let wrapper := createElement wrapperId "blazor-component"
            let cs'' := insertNodeIntoDOM wrapper cs' childIndex
            match moveIntoWrapper newCount.toNat cs'' childIndex with
            | .error e => .error e
            | .ok cs''' =>
              match setChildrenAt root₂ parentPath cs''' with
              | none => .error .notAnElement
              | some root₃ =>
                .ok (root₃,
                  { st₂ with nextId := wrapperId + 1,
                             locations := bindLoc st₂.locations componentId wrapperId })

/-- `updateComponent` (source lines 18–58).  Resolve the component's
current location (throwing `unknownComponent` when unbound), classify it
(placeholder comment marker / `BLAZOR-COMPONENT` wrapper / bare node),
removing a comment marker (it is being replaced by real content), then run
the edit walk and re-record the location (`updateComponentFinalize`). -/
def updateComponent (fuel : Nat) (root : DomNode) (st : RState) (componentId : Nat)
    (edits : List Edit) (editsOffset editsLength : Nat) (frames : List Frame) :
    Except RErr (DomNode × RState) :=
  match lookupLoc st.locations componentId with
  | none => .error (.unknownComponent componentId)
  | some markerId =>
    match findPath markerId root with
    | none => .error .missingNode
    | some path =>
      match getNodeAt root path with
      | none => .error .missingNode
      | some marker =>
        match marker with
        | .comment _ _ =>
          match path.getLast? with
          | none => .error .missingNode   -- a detached marker has no parentElement
          | some childIndex =>
            let parentPath := path.dropLast
            match getChildrenAt root parentPath with
            | none => .error .notAnElement
            | some cs =>
              match setChildrenAt root parentPath (cs.eraseIdx childIndex) with
              | none => .error .notAnElement
              | some root₁ =>
                updateComponentFinalize fuel componentId st root₁ parentPath
                  childIndex 0 false edits editsOffset editsLength frames
        | .element _ tag _ cs =>
          if tag = "BLAZOR-COMPONENT" then
            updateComponentFinalize fuel componentId st root path
              0 cs.length true edits editsOffset editsLength frames
          else
            match path.getLast? with
            | none => .error .missingNode
            | some childIndex =>
              updateComponentFinalize fuel componentId st root path.dropLast
                childIndex 1 false edits editsOffset editsLength frames
        | .text _ _ =>
          match path.getLast? with
          | none => .error .missingNode
          | some childIndex =>
            updateComponentFinalize fuel componentId st root path.dropLast
              childIndex 1 false edits editsOffset editsLength frames

/-- `attachComponentToElement` (source lines 14–16): insert a placeholder
marker as child 0 of the given element and bind the component to it. -/
def attachComponentToElement (root : DomNode) (st : RState) (componentId : Nat)
    (elementPath : List Nat) : Except RErr (DomNode × RState) :=
  match getChildrenAt root elementPath with
  | none => .error .notAnElement
  | some cs =>
    let (st', cs') := insertComponentMarker st componentId cs 0
    match setChildrenAt root elementPath cs' with
    | none => .error .notAnElement
    | some root' => .ok (root', st')

/-! ## Registry lemmas -/


/-! ## Derived definitions used by the claim statements -/

/-- Structural invariant tying each event's set of registered listeners to
the `_blazor*Listener` expando field that remembers the last attached one:
exactly the remembered listener (if any) is registered. -/
def listenerWF (props : ElemProps) : Prop :=
  props.clickListeners = props.blazorClickListener.toList ∧
  props.changeListeners = props.blazorChangeListener.toList ∧
  props.keypressListeners = props.blazorKeypressListener.toList

/-- The listeners currently registered on an element for the event behind
an interactive attribute name. -/
def activeListeners (props : ElemProps) (name : String) : List Nat :=
  if name = "onclick" then props.clickListeners
  else if name = "onchange" then props.changeListeners
  else if name = "onkeypress" then props.keypressListeners
  else []

/-- The subtree length the range scan reads at a frame index. -/
def subtreeLengthAt (frames : List Frame) (k : Nat) : Nat :=
  ((frames[k]?).map Frame.subtreeLength).getD 1

/-- Whether a frame is an attribute frame (the loop guard of
`insertElement`'s attribute scan). -/
def Frame.isAttr : Frame → Bool
  | .attribute _ _ _ => true
  | _ => false

/-- The name carried by an attribute frame. -/
def Frame.attrName : Frame → String
  | .attribute a _ _ => a
  | _ => ""

/-- Sequential application of a list of attribute frames to an element's
props (the effect of the leading-attribute scan of `insertElement`). -/
def applyAttributeFold (tag : String) : RState → ElemProps → List Frame →
    Except RErr (RState × ElemProps)
  | st, props, [] => .ok (st, props)
  | st, props, f :: fs =>
    match applyAttribute st tag props f with
    | .error e => .error e
    | .ok (st', props') => applyAttributeFold tag st' props' fs

/-- The cursor bookkeeping invariant of the edit walk: the depth counter
always equals the cursor path's length, and whenever the walk is at depth
0 the per-depth child index is the original `childIndex` argument. -/
def walkInv (childIndex : Nat) (s : WalkState) : Prop :=
  s.currentDepth = s.path.length ∧
  (s.currentDepth = 0 → s.childIndexAtCurrentDepth = childIndex)

/-- Number of top-level children of a container node. -/
def topChildCount (n : DomNode) : Nat :=
  match n with
  | .element _ _ _ cs => cs.length
  | _ => 0

theorem lookupLoc_unbindLoc_self (locs : List (Nat × Nat)) (cid : Nat) :
    lookupLoc (unbindLoc locs cid) cid = none := by
  induction locs with
  | nil => rfl
  | cons p rest ih =>
    obtain ⟨c, n⟩ := p
    by_cases h : c = cid <;> simp [unbindLoc, lookupLoc, h, ih]

theorem lookupLoc_unbindLoc_ne (locs : List (Nat × Nat)) (cid c : Nat) (h : c ≠ cid) :
    lookupLoc (unbindLoc locs cid) c = lookupLoc locs c := by
  induction locs with
  | nil => rfl
  | cons p rest ih =>
    obtain ⟨c', n⟩ := p
    by_cases h1 : c' = cid
    · subst h1
      simp [unbindLoc, lookupLoc, Ne.symm h, ih]
    · by_cases h2 : c' = c <;> simp [unbindLoc, lookupLoc, h1, h2, h, ih]

theorem unbindLoc_of_lookup_none (locs : List (Nat × Nat)) (cid : Nat)
    (h : lookupLoc locs cid = none) : unbindLoc locs cid = locs := by
  induction locs with
  | nil => rfl
  | cons p rest ih =>
    obtain ⟨c, n⟩ := p
    by_cases h1 : c = cid
    · simp [lookupLoc, h1] at h
    · simp only [lookupLoc, if_neg h1] at h
      simp [unbindLoc, h1, ih h]

/-! ## Claim theorems: C9, C10, C2 -/

/-- C9: node insertion into the live tree is total with respect to
position: `insertNodeIntoDOM` appends when the index is at least the
current child count and inserts before the child at that index otherwise,
so the node always ends up at position `min i n` and the child count grows
by one. -/
theorem insertNodeIntoDOM_total_min (node : DomNode) (children : List DomNode) (i : Nat) :
    insertNodeIntoDOM node children i
        = children.take i ++ node :: children.drop i ∧
    (insertNodeIntoDOM node children i)[min i children.length]? = some node ∧
    (insertNodeIntoDOM node children i).length = children.length + 1 ∧
    (i ≥ children.length → insertNodeIntoDOM node children i = children ++ [node]) ∧
    (i < children.length →
      insertNodeIntoDOM node children i
        = children.take i ++ node :: children.drop i) := by
  by_cases h : i ≥ children.length
  · have hins : insertNodeIntoDOM node children i = children ++ [node] := by
      unfold insertNodeIntoDOM; rw [if_pos h]
    have heq : children ++ [node] = children.take i ++ node :: children.drop i := by
      rw [List.take_of_length_le (by omega), List.drop_eq_nil_of_le (by omega)]
    have hget : (children ++ [node])[children.length]? = some node := by
      rw [List.getElem?_append_right (Nat.le_refl _)]
      simp
    have hm : min i children.length = children.length := by omega
    refine ⟨hins.trans heq, ?_, by rw [hins]; simp, fun _ => hins, fun hlt => by omega⟩
    rw [hins, hm]
    exact hget
  · have hlt : i < children.length := by omega
    have hins : insertNodeIntoDOM node children i
        = children.take i ++ node :: children.drop i := by
      unfold insertNodeIntoDOM; rw [if_neg h]
    have htl : (children.take i).length = i := by rw [List.length_take]; omega
    have hm : min i children.length = i := by omega
    refine ⟨hins, ?_, ?_, fun hge => by omega, fun _ => hins⟩
    · rw [hins, hm, List.getElem?_append_right (by omega)]
      simp [htl]
    · rw [hins]
      simp
      omega

/-- C9 witness: inserting at index 5 under a parent with 1 child appends,
and the node lands at position `min 5 1 = 1`. -/
theorem insertNodeIntoDOM_total_min_witness :
    (5 ≥ 1 → insertNodeIntoDOM (.text 9 "n") [.text 0 "a"] 5
        = [.text 0 "a", .text 9 "n"]) ∧
    (insertNodeIntoDOM (.text 9 "n") [.text 0 "a"] 5)[min 5 1]? = some (.text 9 "n") :=
  ⟨fun _ => (insertNodeIntoDOM_total_min (.text 9 "n") [.text 0 "a"] 5).2.2.2.1 (by decide),
   by
    have h := (insertNodeIntoDOM_total_min (.text 9 "n") [.text 0 "a"] 5).2.1
    simpa using h⟩

/-- C10: `disposeComponent` mutates only the component location registry:
the live tree, the id allocator, and every other component's registry
entry are unchanged, and the disposed component's entry is removed. -/
theorem disposeComponent_only_registry (root : DomNode) (st : RState) (componentId : Nat) :
    (disposeComponent root st componentId).1 = root ∧
    (disposeComponent root st componentId).2.nextId = st.nextId ∧
    lookupLoc (disposeComponent root st componentId).2.locations componentId = none ∧
    (∀ c, c ≠ componentId →
      lookupLoc (disposeComponent root st componentId).2.locations c
        = lookupLoc st.locations c) :=
  ⟨rfl, rfl, lookupLoc_unbindLoc_self st.locations componentId,
   fun c hc => lookupLoc_unbindLoc_ne st.locations componentId c hc⟩

/-- C10 witness: disposing component 7 from a two-entry registry leaves
the tree and the entry of component 3 alone. -/
theorem disposeComponent_only_registry_witness :
    (disposeComponent (.element 0 "DIV" emptyProps []) ⟨[(7, 1), (3, 2)], 5⟩ 7).1
        = .element 0 "DIV" emptyProps [] ∧
    lookupLoc (disposeComponent (.element 0 "DIV" emptyProps [])
        ⟨[(7, 1), (3, 2)], 5⟩ 7).2.locations 3 = some 2 := by
  have h := disposeComponent_only_registry (.element 0 "DIV" emptyProps [])
    ⟨[(7, 1), (3, 2)], 5⟩ 7
  exact ⟨h.1, by rw [h.2.2.2 3 (by omega)]; rfl⟩

/-- C2 counterexample: the claim says `disposeComponent` on an unbound id
fails with an `UnknownComponent` failure, but `disposeComponent` is total
(`delete` of an absent key is a silent no-op): at the concrete unbound id 5
it completes and returns the state unchanged instead of failing. -/
theorem disposeComponent_unknown_id_no_failure :
    disposeComponent (.element 0 "DIV" emptyProps []) ⟨[(7, 1)], 2⟩ 5
      = (.element 0 "DIV" emptyProps [], ⟨[(7, 1)], 2⟩) := rfl

/-- C2 amended: `updateComponent` referencing an unbound componentId fails
with the thrown `UnknownComponent` failure; `disposeComponent` on an
unbound id does not fail — it returns with the renderer state unchanged. -/
theorem unknown_component_update_throws_dispose_noop (fuel : Nat) (root : DomNode)
    (st : RState) (componentId : Nat) (edits : List Edit) (editsOffset editsLength : Nat)
    (frames : List Frame) (h : lookupLoc st.locations componentId = none) :
    updateComponent fuel root st componentId edits editsOffset editsLength frames
        = .error (.unknownComponent componentId) ∧
    disposeComponent root st componentId = (root, st) := by
  constructor
  · unfold updateComponent
    rw [h]
  · unfold disposeComponent
    rw [unbindLoc_of_lookup_none st.locations componentId h]

/-- C2 witness: component 5 is unbound in the registry `[(7, 1)]`. -/
theorem unknown_component_update_throws_dispose_noop_witness :
    lookupLoc ([(7, 1)] : List (Nat × Nat)) 5 = none ∧
    updateComponent 4 (.element 0 "DIV" emptyProps []) ⟨[(7, 1)], 2⟩ 5 [] 0 0 []
      = .error (.unknownComponent 5) :=
  ⟨by decide,
   (unknown_component_update_throws_dispose_noop 4 (.element 0 "DIV" emptyProps [])
     ⟨[(7, 1)], 2⟩ 5 [] 0 0 [] (by decide)).1⟩

/-! ## Claim theorems: C6, C7 -/

/-- C6: applying an attribute frame named `value` to an `INPUT`/`SELECT`
element stops without writing any string attribute: a checkbox-typed input
gets its `checked` live property set to `value === 'True'`, every other
such control gets the raw string assigned to its live `value` property. -/
theorem applyAttribute_value_property (st : RState) (tag : String) (props : ElemProps)
    (v : Option String) (eventHandlerId : Nat) (htag : tag = "INPUT" ∨ tag = "SELECT") :
    applyAttribute st tag props (.attribute "value" v eventHandlerId)
        = .ok (st,
            if isCheckbox tag props.attrs then { props with checked := v = some "True" }
            else { props with value := v }) ∧
    (if isCheckbox tag props.attrs then { props with checked := v = some "True" }
     else { props with value := v }).attrs = props.attrs := by
  have hval : tryApplyValueProperty tag props v
      = some (if isCheckbox tag props.attrs then { props with checked := v = some "True" }
              else { props with value := v }) := by
    rcases htag with h | h <;> subst h <;> rw [tryApplyValueProperty] <;> split <;> rfl
  exact ⟨by simp [applyAttribute, hval], by split <;> rfl⟩

/-- C6 witness: `{name: "value", value: "True"}` on `<input type=checkbox>`
sets the `checked` property and writes no `value` string attribute. -/
theorem applyAttribute_value_property_witness :
    applyAttribute ⟨[], 0⟩ "INPUT" { emptyProps with attrs := [("type", "checkbox")] }
        (.attribute "value" (some "True") 0)
      = .ok (⟨[], 0⟩,
          { emptyProps with attrs := [("type", "checkbox")], checked := true }) ∧
    ({ emptyProps with attrs := [("type", "checkbox")], checked := true } : ElemProps).attrs
      = [("type", "checkbox")] := by
  have h := applyAttribute_value_property ⟨[], 0⟩ "INPUT"
    { emptyProps with attrs := [("type", "checkbox")] } (some "True") 0 (Or.inl rfl)
  refine ⟨?_, rfl⟩
  rw [h.1]
  have hcb : isCheckbox "INPUT" [("type", "checkbox")] = true := by decide
  simp [emptyProps, hcb]

/-- C7: listener rebind is idempotent.  For each of `onclick`, `onchange`,
`onkeypress`, applying the same attribute frame twice in sequence leaves
exactly one registered listener for that event (each application first
removes the previously remembered listener, then attaches and remembers a
new one); already the first application leaves exactly one. -/
theorem listener_rebind_idempotent (st : RState) (tag : String) (props : ElemProps)
    (name : String) (v : Option String) (eventHandlerId : Nat)
    (hname : name = "onclick" ∨ name = "onchange" ∨ name = "onkeypress")
    (hwf : listenerWF props) :
    ∃ st₁ p₁ st₂ p₂,
      applyAttribute st tag props (.attribute name v eventHandlerId) = .ok (st₁, p₁) ∧
      applyAttribute st₁ tag p₁ (.attribute name v eventHandlerId) = .ok (st₂, p₂) ∧
      (activeListeners p₁ name).length = 1 ∧
      (activeListeners p₂ name).length = 1 ∧
      listenerWF p₂ := by
  obtain ⟨h1, h2, h3⟩ := hwf
  rcases hname with h | h | h <;> subst h
  · have hrm : (match props.blazorClickListener with
        | none => props.clickListeners
        | some f => props.clickListeners.erase f) = [] := by
      cases hcl : props.blazorClickListener <;> rw [hcl] at h1 <;> simp [h1]
    have e1 : applyAttribute st tag props (.attribute "onclick" v eventHandlerId)
        = .ok ({ st with nextId := st.nextId + 1 },
            { props with blazorClickListener := some st.nextId,
                         clickListeners := [st.nextId] }) := by
      simp [applyAttribute, hrm]
    have e2 : applyAttribute { st with nextId := st.nextId + 1 } tag
        { props with blazorClickListener := some st.nextId,
                     clickListeners := [st.nextId] }
        (.attribute "onclick" v eventHandlerId)
        = .ok ({ st with nextId := st.nextId + 1 + 1 },
            { props with blazorClickListener := some (st.nextId + 1),
                         clickListeners := [st.nextId + 1] }) := by
      simp [applyAttribute]
    exact ⟨_, _, _, _, e1, e2, by simp [activeListeners], by simp [activeListeners],
      rfl, by simpa using h2, by simpa using h3⟩
  · have hrm : (match props.blazorChangeListener with
        | none => props.changeListeners
        | some f => props.changeListeners.erase f) = [] := by
      cases hcl : props.blazorChangeListener <;> rw [hcl] at h2 <;> simp [h2]
    have e1 : applyAttribute st tag props (.attribute "onchange" v eventHandlerId)
        = .ok ({ st with nextId := st.nextId + 1 },
            { props with blazorChangeListener := some st.nextId,
                         changeListeners := [st.nextId] }) := by
      simp [applyAttribute, hrm]
    have e2 : applyAttribute { st with nextId := st.nextId + 1 } tag
        { props with blazorChangeListener := some st.nextId,
                     changeListeners := [st.nextId] }
        (.attribute "onchange" v eventHandlerId)
        = .ok ({ st with nextId := st.nextId + 1 + 1 },
            { props with blazorChangeListener := some (st.nextId + 1),
                         changeListeners := [st.nextId + 1] }) := by
      simp [applyAttribute]
    exact ⟨_, _, _, _, e1, e2, by simp [activeListeners], by simp [activeListeners],
      by simpa using h1, rfl, by simpa using h3⟩
  · have hrm : (match props.blazorKeypressListener with
        | none => props.keypressListeners
        | some f => props.keypressListeners.erase f) = [] := by
      cases hcl : props.blazorKeypressListener <;> rw [hcl] at h3 <;> simp [h3]
    have e1 : applyAttribute st tag props (.attribute "onkeypress" v eventHandlerId)
        = .ok ({ st with nextId := st.nextId + 1 },
            { props with blazorKeypressListener := some st.nextId,
                         keypressListeners := [st.nextId] }) := by
      simp [applyAttribute, hrm]
    have e2 : applyAttribute { st with nextId := st.nextId + 1 } tag
        { props with blazorKeypressListener := some st.nextId,
                     keypressListeners := [st.nextId] }
        (.attribute "onkeypress" v eventHandlerId)
        = .ok ({ st with nextId := st.nextId + 1 + 1 },
            { props with blazorKeypressListener := some (st.nextId + 1),
                         keypressListeners := [st.nextId + 1] }) := by
      simp [applyAttribute]
    exact ⟨_, _, _, _, e1, e2, by simp [activeListeners], by simp [activeListeners],
      by simpa using h1, by simpa using h2, rfl⟩

/-- C7 witness: applying `onclick` twice to a fresh element leaves exactly
one registered click listener. -/
theorem listener_rebind_idempotent_witness :
    (("onclick" : String) = "onclick" ∨ ("onclick" : String) = "onchange"
        ∨ ("onclick" : String) = "onkeypress") ∧
    listenerWF emptyProps ∧
    ∃ st₁ p₁ st₂ p₂,
      applyAttribute ⟨[], 0⟩ "BUTTON" emptyProps (.attribute "onclick" none 3)
          = .ok (st₁, p₁) ∧
      applyAttribute st₁ "BUTTON" p₁ (.attribute "onclick" none 3) = .ok (st₂, p₂) ∧
      (activeListeners p₁ "onclick").length = 1 ∧
      (activeListeners p₂ "onclick").length = 1 ∧
      listenerWF p₂ :=
  ⟨Or.inl rfl, ⟨rfl, rfl, rfl⟩,
   listener_rebind_idempotent ⟨[], 0⟩ "BUTTON" emptyProps "onclick" none 3
     (Or.inl rfl) ⟨rfl, rfl, rfl⟩⟩

theorem insertNodeIntoDOM_length (node : DomNode) (cs : List DomNode) (i : Nat) :
    (insertNodeIntoDOM node cs i).length = cs.length + 1 := by
  unfold insertNodeIntoDOM
  split
  · simp
  · simp
    omega

theorem insert_length (fuel : Nat) :
    (∀ componentId st cs childIndex frames frameIndex st' cs' n,
      insertFrame fuel componentId st cs childIndex frames frameIndex = .ok (st', cs', n) →
      cs'.length = cs.length + n) ∧
    (∀ componentId st cs childIndex frames i e st' cs' n,
      insertFrameRange fuel componentId st cs childIndex frames i e = .ok (st', cs', n) →
      cs'.length = cs.length + n) := by
  induction fuel with
  | zero =>
    refine ⟨fun _ _ _ _ _ _ _ _ _ h => ?_, fun _ _ _ _ _ _ _ _ _ _ h => ?_⟩
    · simp [insertFrame] at h
    · simp [insertFrameRange] at h
  | succ fuel ih =>
    obtain ⟨ihF, ihR⟩ := ih
    constructor
    · intro componentId st cs childIndex frames frameIndex st' cs' n h
      rw [insertFrame] at h
      split at h
      · exact absurd h (by simp)
      · rename_i f hf
        cases f
        · -- element
          simp only [] at h
          split at h
          · exact absurd h (by simp)
          · rename_i st1 props kids hel
            simp only [Except.ok.injEq, Prod.mk.injEq] at h
            obtain ⟨-, hcs, hn⟩ := h
            subst hcs; subst hn
            simp [insertNodeIntoDOM_length]
        · -- text
          simp only [Except.ok.injEq, Prod.mk.injEq] at h
          obtain ⟨-, hcs, hn⟩ := h
          subst hcs; subst hn
          simp [insertNodeIntoDOM_length]
        · -- attribute
          simp only [] at h
          exact absurd h (by simp)
        · -- component
          simp only [insertComponentMarker] at h
          simp only [Except.ok.injEq, Prod.mk.injEq] at h
          obtain ⟨-, hcs, hn⟩ := h
          subst hcs; subst hn
          simp [insertNodeIntoDOM_length]
        · -- region
          simp only [] at h
          exact ihR _ _ _ _ _ _ _ _ _ _ h
    · intro componentId st cs childIndex frames i e st' cs' n h
      rw [insertFrameRange] at h
      split at h
      · split at h
        · exact absurd h (by simp)
        · rename_i frame hf
          split at h
          · exact absurd h (by simp)
          · rename_i st1 cs1 n1 hins
            simp only [] at h
            split at h
            · exact absurd h (by simp)
            · rename_i st2 cs2 m hrec
              simp only [Except.ok.injEq, Prod.mk.injEq] at h
              obtain ⟨-, hcs, hn⟩ := h
              have l1 := ihF _ _ _ _ _ _ _ _ _ hins
              have l2 := ihR _ _ _ _ _ _ _ _ _ _ hrec
              subst hcs
              omega
      · simp only [Except.ok.injEq, Prod.mk.injEq] at h
        obtain ⟨-, hcs, hn⟩ := h
        subst hcs
        omega

/-! ## Claim theorem: C4 -/

/-- C4: a region frame never creates a live node of its own:
`insertFrame` on a region frame is exactly the recursive materialization
of its descendant range directly into the parent at the given index, the
count it returns is exactly the number of live nodes the range added to
the parent, and the concrete range `[region(3), text "a", text "b"]`
materialized at index 0 yields exactly the two text-node siblings and
returns 2 — with no intervening element. -/
theorem region_no_own_node (fuel componentId len frameIndex : Nat) (st : RState)
    (cs : List DomNode) (childIndex : Nat) (frames : List Frame)
    (hf : frames[frameIndex]? = some (.region len)) :
    insertFrame (fuel + 1) componentId st cs childIndex frames frameIndex
        = insertFrameRange fuel componentId st cs childIndex frames
            (frameIndex + 1) (frameIndex + len) ∧
    (∀ st' cs' n,
      insertFrameRange fuel componentId st cs childIndex frames
          (frameIndex + 1) (frameIndex + len) = .ok (st', cs', n) →
      cs'.length = cs.length + n) ∧
    insertFrame 5 componentId st [] 0 [.region 3, .text "a", .text "b"] 0
      = .ok ({ st with nextId := st.nextId + 1 + 1 },
          [.text st.nextId "a", .text (st.nextId + 1) "b"], 2) := by
  refine ⟨?_, fun st' cs' n h => (insert_length fuel).2 _ _ _ _ _ _ _ _ _ _ h, ?_⟩
  · rw [insertFrame, hf]
  · rfl

/-- C4 witness: the general conjuncts applied at the concrete region
range, with the hypothesis discharged by evaluation. -/
theorem region_no_own_node_witness :
    insertFrame 5 0 ⟨[], 0⟩ [] 0 [.region 3, .text "a", .text "b"] 0
        = insertFrameRange 4 0 ⟨[], 0⟩ [] 0 [.region 3, .text "a", .text "b"] (0 + 1) (0 + 3) ∧
    ([DomNode.text 0 "a", DomNode.text 1 "b"].length
        = ([] : List DomNode).length + 2) := by
  have h := region_no_own_node 4 0 3 0 ⟨[], 0⟩ [] 0 [.region 3, .text "a", .text "b"]
    (by rfl)
  exact ⟨h.1, h.2.1 ⟨[], 2⟩ [.text 0 "a", .text 1 "b"] 2 (by rfl)⟩

theorem levelIndices_cons (frames : List Frame) (i e fuel : Nat) (f : Frame)
    (hlt : i < e) (hf : frames[i]? = some f) (hlen : 1 ≤ f.subtreeLength) :
    levelIndices frames i e (fuel + 1)
      = i :: levelIndices frames (i + f.subtreeLength) e fuel := by
  have hidx : (if f.subtreeLength > 1 then i + f.subtreeLength else i + 1)
      = i + f.subtreeLength := by split <;> omega
  rw [levelIndices, if_pos hlt, hf]
  simp only [hidx]

theorem levelIndices_lb (frames : List Frame) :
    ∀ fuel i e, ∀ k ∈ levelIndices frames i e fuel, i ≤ k := by
  intro fuel
  induction fuel with
  | zero => intro i e k hk; simp [levelIndices] at hk
  | succ fuel ih =>
    intro i e k hk
    rw [levelIndices] at hk
    split at hk
    · cases hf : frames[i]? with
      | none => rw [hf] at hk; simp at hk
      | some f =>
        rw [hf] at hk
        rcases List.mem_cons.mp hk with h | h
        · omega
        · have := ih _ _ _ h
          split at this <;> omega
    · simp at hk

theorem levelIndices_pairwise (frames : List Frame) :
    ∀ fuel i e, (levelIndices frames i e fuel).Pairwise
      (fun a b => a + subtreeLengthAt frames a ≤ b ∧ a < b) := by
  intro fuel
  induction fuel with
  | zero => intro i e; simp [levelIndices]
  | succ fuel ih =>
    intro i e
    rw [levelIndices]
    split
    · cases hf : frames[i]? with
      | none => simp
      | some f =>
        refine List.pairwise_cons.mpr ⟨?_, ih _ _⟩
        intro b hb
        have hlb := levelIndices_lb frames fuel _ _ b hb
        have hsub : subtreeLengthAt frames i = f.subtreeLength := by
          simp [subtreeLengthAt, hf]
        rw [hsub]
        split at hlb <;> omega
    · simp

theorem insertFrameRange_eq_seq (fuel : Nat) :
    ∀ componentId st cs childIndex frames i e r,
      insertFrameRange fuel componentId st cs childIndex frames i e = .ok r →
      insertFrameSeq componentId frames fuel st cs childIndex
        (levelIndices frames i e fuel) = .ok r := by
  induction fuel with
  | zero => intro _ _ _ _ _ _ _ _ h; simp [insertFrameRange] at h
  | succ fuel ih =>
    intro componentId st cs childIndex frames i e r h
    rw [insertFrameRange] at h
    rw [levelIndices]
    split at h
    · rename_i hlt
      rw [if_pos hlt]
      split at h
      · exact absurd h (by simp)
      · rename_i f hf
        simp only [] at h
        split at h
        · exact absurd h (by simp)
        · rename_i st1 cs1 n1 hins
          split at h
          · exact absurd h (by simp)
          · rename_i st2 cs2 m hrec
            rw [insertFrameSeq, hins]
            simp only []
            rw [ih _ _ _ _ _ _ _ _ hrec]
            simp only []
            exact h
    · rw [if_neg (by assumption)]
      exact h

theorem insertFrameRange_covers (fuel : Nat) :
    ∀ componentId st cs childIndex frames i e r j,
      insertFrameRange fuel componentId st cs childIndex frames i e = .ok r →
      (∀ k, i ≤ k → k < e → 1 ≤ subtreeLengthAt frames k) →
      i ≤ j → j < e →
      ∃ k ∈ levelIndices frames i e fuel,
        k ≤ j ∧ j < k + subtreeLengthAt frames k := by
  induction fuel with
  | zero => intro _ _ _ _ _ _ _ _ _ h; simp [insertFrameRange] at h
  | succ fuel ih =>
    intro componentId st cs childIndex frames i e r j h hwf hij hje
    have hlt : i < e := by omega
    rw [insertFrameRange, if_pos hlt] at h
    split at h
    · exact absurd h (by simp)
    · rename_i f hf
      simp only [] at h
      split at h
      · exact absurd h (by simp)
      · rename_i st1 cs1 n1 hins
        split at h
        · exact absurd h (by simp)
        · rename_i st2 cs2 m hrec
          have hsub : subtreeLengthAt frames i = f.subtreeLength := by
            simp [subtreeLengthAt, hf]
          have hlen : 1 ≤ f.subtreeLength := by
            have := hwf i (by omega) hlt
            omega
          have hidx : (if f.subtreeLength > 1 then i + f.subtreeLength else i + 1)
              = i + f.subtreeLength := by split <;> omega
          rw [levelIndices_cons frames i e fuel f hlt hf hlen]
          by_cases hcase : j < i + f.subtreeLength
          · exact ⟨i, List.mem_cons_self _ _, by omega, by rw [hsub]; omega⟩
          · rw [hidx] at hrec
            obtain ⟨k, hk, hkj, hjk⟩ :=
              ih _ _ _ _ _ _ _ _ j hrec (fun k hk1 hk2 => hwf k (by omega) hk2)
                (by omega) hje
            exact ⟨k, List.mem_cons_of_mem _ hk, hkj, hjk⟩

/-! ## Claim theorem: C8 -/

/-- C8: materializing a frame range is one linear scan.  Under a successful
run whose frames have positive subtree lengths, the scan equals the
sequential materialization of exactly the chain `levelIndices`, in which
the cursor advances past each visited frame by its full subtree length
(rather than by one); the chain is strictly increasing (each level frame
is visited exactly once) with no later visit falling inside an earlier
frame's subtree range (descendants consumed by the recursive call are
never revisited), and every frame index of the range lies in the range of
exactly the chain's visits — no separate visited-set exists anywhere in
the state. -/
theorem range_scan_single_pass (fuel componentId : Nat) (st : RState)
    (cs : List DomNode) (childIndex : Nat) (frames : List Frame) (i e : Nat)
    (r : RState × List DomNode × Nat)
    (hok : insertFrameRange fuel componentId st cs childIndex frames i e = .ok r)
    (hwf : ∀ k, i ≤ k → k < e → 1 ≤ subtreeLengthAt frames k) :
    insertFrameSeq componentId frames fuel st cs childIndex
        (levelIndices frames i e fuel) = .ok r ∧
    (∀ fuel' i' f', i' < e → frames[i']? = some f' → 1 ≤ f'.subtreeLength →
      levelIndices frames i' e (fuel' + 1)
        = i' :: levelIndices frames (i' + f'.subtreeLength) e fuel') ∧
    (levelIndices frames i e fuel).Pairwise
      (fun a b => a + subtreeLengthAt frames a ≤ b ∧ a < b) ∧
    (∀ j, i ≤ j → j < e →
      ∃ k ∈ levelIndices frames i e fuel,
        k ≤ j ∧ j < k + subtreeLengthAt frames k) :=
  ⟨insertFrameRange_eq_seq fuel _ _ _ _ _ _ _ _ hok,
   fun fuel' i' f' h1 h2 h3 => levelIndices_cons frames i' e fuel' f' h1 h2 h3,
   levelIndices_pairwise frames fuel i e,
   fun j h1 h2 => insertFrameRange_covers fuel _ _ _ _ _ _ _ _ j hok hwf h1 h2⟩

/-- C8 witness: the scan over `[text "t", region(2), text "u"]` between 0
and 3 visits exactly indices 0 and 1 (the region's descendant is skipped
by subtree-length arithmetic) and equals the sequential materialization of
that chain. -/
theorem range_scan_single_pass_witness :
    insertFrameSeq 0 [.text "t", .region 2, .text "u"] 8 ⟨[], 0⟩ [] 0
        (levelIndices [.text "t", .region 2, .text "u"] 0 3 8)
      = .ok (⟨[], 2⟩, [.text 0 "t", .text 1 "u"], 2) ∧
    (levelIndices [.text "t", .region 2, .text "u"] 0 3 8).Pairwise
      (fun a b => a + subtreeLengthAt [.text "t", .region 2, .text "u"] a ≤ b ∧ a < b) := by
  have h := range_scan_single_pass 8 0 ⟨[], 0⟩ [] 0 [.text "t", .region 2, .text "u"]
    0 3 (⟨[], 2⟩, [.text 0 "t", .text 1 "u"], 2) (by rfl)
    (fun k hk1 hk2 => by interval_cases k <;> decide)
  exact ⟨h.1, h.2.2.1⟩

/-! ## Claim theorem: C5 -/

theorem applyAttribute_isOk (st : RState) (tag : String) (props : ElemProps)
    (a : String) (v : Option String) (eh : Nat) :
    ∃ st' props', applyAttribute st tag props (.attribute a v eh) = .ok (st', props') := by
  unfold applyAttribute
  repeat' split
  all_goals exact ⟨_, _, rfl⟩

theorem applyAttribute_plain (st : RState) (tag : String) (props : ElemProps)
    (a : String) (v : Option String) (eh : Nat) (h1 : a ≠ "value") (h2 : a ≠ "onclick")
    (h3 : a ≠ "onchange") (h4 : a ≠ "onkeypress") :
    applyAttribute st tag props (.attribute a v eh)
      = .ok (st, { props with attrs := setAttr props.attrs a (v.getD "null") }) := by
  simp [applyAttribute, h1, h2, h3, h4]

theorem setAttr_not_mem (attrs : List (String × String)) (name value : String)
    (h : attrs.any (fun p => p.1 = name) = false) :
    setAttr attrs name value = attrs ++ [(name, value)] := by
  simp only [setAttr, h]
  simp

theorem insertElementFrames_attrs (tag : String) (componentId : Nat) (frames : List Frame) :
    ∀ (attrFrames : List Frame) (fuel₀ : Nat) (st : RState) (props : ElemProps) (i e : Nat),
      (∀ k, k < attrFrames.length →
        ∃ a v eh, attrFrames[k]? = some (.attribute a v eh) ∧
          frames[i + k]? = some (.attribute a v eh)) →
      i + attrFrames.length ≤ e →
      insertElementFrames (attrFrames.length + fuel₀) componentId st tag props frames i e
        = (match applyAttributeFold tag st props attrFrames with
           | .error err => .error err
           | .ok (st1, p1) =>
             insertElementFrames fuel₀ componentId st1 tag p1 frames
               (i + attrFrames.length) e) := by
  intro attrFrames
  induction attrFrames with
  | nil =>
    intro fuel₀ st props i e _ _
    simp [applyAttributeFold]
  | cons f fs ih =>
    intro fuel₀ st props i e hattrs hle
    obtain ⟨a, v, eh, hfk, hframe⟩ := hattrs 0 (by simp)
    have hf0 : f = .attribute a v eh := by simpa using hfk
    subst hf0
    have hiadd : i + 0 = i := by omega
    rw [hiadd] at hframe
    have hlt : i < e := by simp at hle; omega
    have hfuel : (Frame.attribute a v eh :: fs).length + fuel₀ = (fs.length + fuel₀) + 1 := by
      simp; omega
    rw [hfuel, insertElementFrames, if_pos hlt, hframe]
    simp only []
    obtain ⟨st', p', hap⟩ := applyAttribute_isOk st tag props a v eh
    rw [hap]
    simp only []
    have harg : ∀ k, k < fs.length →
        ∃ a' v' eh', fs[k]? = some (.attribute a' v' eh') ∧
          frames[i + 1 + k]? = some (.attribute a' v' eh') := by
      intro k hk
      obtain ⟨a', v', eh', h1, h2⟩ := hattrs (k + 1) (by simp; omega)
      refine ⟨a', v', eh', by simpa using h1, ?_⟩
      have : i + (k + 1) = i + 1 + k := by omega
      rw [this] at h2
      exact h2
    rw [ih fuel₀ st' p' (i + 1) e harg (by simp at hle ⊢; omega)]
    rw [show applyAttributeFold tag st props (Frame.attribute a v eh :: fs)
        = applyAttributeFold tag st' p' fs from by rw [applyAttributeFold, hap]]
    have : i + 1 + fs.length = i + (Frame.attribute a v eh :: fs).length := by
      simp; omega
    rw [this]

theorem insertElementFrames_stop (tag : String) (componentId : Nat) (frames : List Frame)
    (fuel₁ : Nat) (st : RState) (props : ElemProps) (j e : Nat)
    (hstop : j = e ∨ (j < e ∧ ∃ g, frames[j]? = some g ∧ g.isAttr = false)) :
    insertElementFrames (fuel₁ + 2) componentId st tag props frames j e
      = (match insertFrameRange (fuel₁ + 1) componentId st [] 0 frames j e with
         | .error err => .error err
         | .ok (st2, kids, _) => .ok (st2, props, kids)) := by
  rcases hstop with h | ⟨hlt, g, hg, hgattr⟩
  · subst h
    rw [show fuel₁ + 2 = (fuel₁ + 1) + 1 from rfl, insertElementFrames,
      if_neg (by omega), insertFrameRange, if_neg (by omega)]
  · rw [show fuel₁ + 2 = (fuel₁ + 1) + 1 from rfl, insertElementFrames,
      if_pos hlt, hg]
    cases g
    · rfl
    · rfl
    · simp [Frame.isAttr] at hgattr
    · rfl
    · rfl

theorem applyAttributeFold_plain (tag : String) :
    ∀ (fs : List Frame) (st : RState) (props : ElemProps),
      (∀ f ∈ fs, ∃ a v eh, f = .attribute a v eh ∧
        a ≠ "value" ∧ a ≠ "onclick" ∧ a ≠ "onchange" ∧ a ≠ "onkeypress") →
      (fs.map Frame.attrName).Nodup →
      (∀ f ∈ fs, props.attrs.any (fun p => p.1 = f.attrName) = false) →
      ∃ p', applyAttributeFold tag st props fs = .ok (st, p') ∧
        p'.attrs.length = props.attrs.length + fs.length := by
  intro fs
  induction fs with
  | nil => intro st props _ _ _; exact ⟨props, rfl, by simp⟩
  | cons f fs ih =>
    intro st props hplain hnodup hfresh
    obtain ⟨a, v, eh, hf0, h1, h2, h3, h4⟩ := hplain f (by simp)
    subst hf0
    have hfr : props.attrs.any (fun p => p.1 = a) = false := by
      have := hfresh _ (List.mem_cons_self _ _)
      simpa [Frame.attrName] using this
    have hset : setAttr props.attrs a (v.getD "null")
        = props.attrs ++ [(a, v.getD "null")] := setAttr_not_mem _ _ _ hfr
    have hstep := applyAttribute_plain st tag props a v eh h1 h2 h3 h4
    rw [applyAttributeFold, hstep]
    simp only []
    have hnodup' : (fs.map Frame.attrName).Nodup := (List.nodup_cons.mp hnodup).2
    have hha : (Frame.attribute a v eh).attrName = a := rfl
    have hfresh' : ∀ f' ∈ fs,
        ({ props with attrs := setAttr props.attrs a (v.getD "null") } : ElemProps).attrs.any
            (fun p => p.1 = f'.attrName) = false := by
      intro f' hf'
      have hold := hfresh f' (List.mem_cons_of_mem _ hf')
      have hnotmem : a ∉ fs.map Frame.attrName :=
        (List.nodup_cons.mp (by simpa [Frame.attrName] using hnodup)).1
      have hne : f'.attrName ≠ a := by
        intro heq
        exact hnotmem (heq ▸ List.mem_map_of_mem Frame.attrName hf')
      simp [hset, List.any_append, hold, hne, hne.symm]
    obtain ⟨p', hfold, hlen⟩ := ih _ _
      (fun f' hf' => hplain f' (List.mem_cons_of_mem _ hf')) hnodup' hfresh'
    refine ⟨p', hfold, ?_⟩
    rw [hlen]
    simp [hset]
    omega

theorem insertFrameRange_texts (componentId : Nat) (frames : List Frame) :
    ∀ (fuel : Nat) (i e : Nat) (st : RState) (cs : List DomNode) (ci : Nat),
      e - i < fuel → i ≤ e →
      (∀ k, i ≤ k → k < e → ∃ s, frames[k]? = some (.text s)) →
      ∃ st' cs', insertFrameRange fuel componentId st cs ci frames i e
        = .ok (st', cs', e - i) := by
  intro fuel
  induction fuel with
  | zero => intro i e st cs ci hfuel _ _; omega
  | succ fuel ih =>
    intro i e st cs ci hfuel hle htext
    by_cases hlt : i < e
    · obtain ⟨s, hs⟩ := htext i le_rfl hlt
      rw [insertFrameRange, if_pos hlt, hs]
      simp only []
      cases fuel with
      | zero => omega
      | succ f =>
        rw [insertFrame, hs]
        simp only []
        have hidx : (if (Frame.text s).subtreeLength > 1
            then i + (Frame.text s).subtreeLength else i + 1) = i + 1 := by
          simp [Frame.subtreeLength]
        rw [hidx]
        obtain ⟨st', cs', hrec⟩ := ih (i + 1) e
          { st with nextId := st.nextId + 1 }
          (insertNodeIntoDOM (.text st.nextId s) cs ci) (ci + 1)
          (by omega) (by omega) (fun k hk1 hk2 => htext k (by omega) hk2)
        rw [hrec]
        simp only []
        have hc : 1 + (e - (i + 1)) = e - i := by omega
        rw [hc]
        exact ⟨st', cs', rfl⟩
    · rw [insertFrameRange, if_neg hlt]
      have : e - i = 0 := by omega
      rw [this]
      exact ⟨st, cs, rfl⟩

/-- C5: `insertFrame` on an element frame with N leading attribute child
frames creates a new live element with the frame's (uppercased) tag name
inserted at the given index and returns 1; the N leading attribute frames
are applied to the new element in order, the remaining descendant range is
materialized as its children starting at local index 0 without re-applying
the consumed attribute frames; when the N attribute names are distinct and
none is special-cased the element carries exactly N attributes, and when
the M remaining descendant frames are text frames the element carries
exactly M materialized descendant nodes in order. -/
theorem insertElement_spec (fuel₁ componentId frameIndex len : Nat) (tag : String)
    (st : RState) (cs : List DomNode) (childIndex : Nat) (frames : List Frame)
    (attrFrames : List Frame)
    (hf : frames[frameIndex]? = some (.element tag len))
    (hattrs : ∀ k, k < attrFrames.length →
      ∃ a v eh, attrFrames[k]? = some (.attribute a v eh) ∧
        frames[frameIndex + 1 + k]? = some (.attribute a v eh))
    (hstop : frameIndex + 1 + attrFrames.length = frameIndex + len ∨
      (frameIndex + 1 + attrFrames.length < frameIndex + len ∧
       ∃ g, frames[frameIndex + 1 + attrFrames.length]? = some g ∧ g.isAttr = false)) :
    insertFrame (attrFrames.length + (fuel₁ + 2) + 1) componentId st cs childIndex
        frames frameIndex
      = (match applyAttributeFold (strUpper tag) { st with nextId := st.nextId + 1 }
             emptyProps attrFrames with
         | .error err => .error err
         | .ok (st1, p1) =>
           match insertFrameRange (fuel₁ + 1) componentId st1 [] 0 frames
               (frameIndex + 1 + attrFrames.length) (frameIndex + len) with
           | .error err => .error err
           | .ok (st2, kids, _) =>
             .ok (st2,
               insertNodeIntoDOM (.element st.nextId (strUpper tag) p1 kids) cs childIndex,
               1)) ∧
    ((∀ f ∈ attrFrames, ∃ a v eh, f = .attribute a v eh ∧
        a ≠ "value" ∧ a ≠ "onclick" ∧ a ≠ "onchange" ∧ a ≠ "onkeypress") →
      (attrFrames.map Frame.attrName).Nodup →
      ∃ p1, applyAttributeFold (strUpper tag) { st with nextId := st.nextId + 1 }
          emptyProps attrFrames
        = .ok ({ st with nextId := st.nextId + 1 }, p1) ∧
        p1.attrs.length = attrFrames.length) ∧
    (∀ st1 : RState,
      (∀ k, frameIndex + 1 + attrFrames.length ≤ k → k < frameIndex + len →
        ∃ s, frames[k]? = some (.text s)) →
      (frameIndex + len) - (frameIndex + 1 + attrFrames.length) < fuel₁ + 1 →
      ∃ st2 kids, insertFrameRange (fuel₁ + 1) componentId st1 [] 0 frames
          (frameIndex + 1 + attrFrames.length) (frameIndex + len)
        = .ok (st2, kids,
            (frameIndex + len) - (frameIndex + 1 + attrFrames.length)) ∧
        kids.length = (frameIndex + len) - (frameIndex + 1 + attrFrames.length)) := by
  have hle : frameIndex + 1 + attrFrames.length ≤ frameIndex + len := by
    rcases hstop with h | ⟨h, _⟩ <;> omega
  refine ⟨?_, ?_, ?_⟩
  · rw [insertFrame, hf]
    simp only []
    rw [insertElementFrames_attrs (strUpper tag) componentId frames attrFrames (fuel₁ + 2)
      { st with nextId := st.nextId + 1 } emptyProps (frameIndex + 1) (frameIndex + len)
      hattrs hle]
    cases hfold : applyAttributeFold (strUpper tag) { st with nextId := st.nextId + 1 }
        emptyProps attrFrames with
    | error err => simp only []
    | ok pr =>
      obtain ⟨st1, p1⟩ := pr
      simp only []
      rw [insertElementFrames_stop (strUpper tag) componentId frames fuel₁ st1 p1
        (frameIndex + 1 + attrFrames.length) (frameIndex + len) hstop]
      cases hrange : insertFrameRange (fuel₁ + 1) componentId st1 [] 0 frames
          (frameIndex + 1 + attrFrames.length) (frameIndex + len) with
      | error err => simp only []
      | ok tr =>
        obtain ⟨st2, kids, n⟩ := tr
        simp only []
  · intro hplain hnodup
    obtain ⟨p', hfold, hlen⟩ := applyAttributeFold_plain (strUpper tag) attrFrames
      { st with nextId := st.nextId + 1 } emptyProps hplain hnodup
      (fun f _ => rfl)
    exact ⟨p', hfold, by simpa [emptyProps] using hlen⟩
  · intro st1 htext hfuel
    obtain ⟨st2, kids, hrange⟩ := insertFrameRange_texts componentId frames (fuel₁ + 1)
      (frameIndex + 1 + attrFrames.length) (frameIndex + len) st1 [] 0 hfuel hle htext
    refine ⟨st2, kids, hrange, ?_⟩
    have := (insert_length (fuel₁ + 1)).2 _ _ _ _ _ _ _ _ _ _ hrange
    simpa using this

/-- C5 witness: a `p` element frame with one leading `class` attribute and
two text descendants materializes as `<p class="c">hiho</p>` with one
attribute and two children, and `insertFrame` returns 1. -/
theorem insertElement_spec_witness :
    insertFrame 7 0 ⟨[], 50⟩ [] 0
        [.element "p" 4, .attribute "class" (some "c") 0, .text "hi", .text "ho"] 0
      = .ok (⟨[], 53⟩,
          [.element 50 "P" { emptyProps with attrs := [("class", "c")] }
            [.text 51 "hi", .text 52 "ho"]], 1) ∧
    (∃ p1, applyAttributeFold "P" ⟨[], 51⟩ emptyProps [.attribute "class" (some "c") 0]
        = .ok (⟨[], 51⟩, p1) ∧ p1.attrs.length = 1) := by
  have h := insertElement_spec 3 0 0 4 "p" ⟨[], 50⟩ [] 0
    [.element "p" 4, .attribute "class" (some "c") 0, .text "hi", .text "ho"]
    [.attribute "class" (some "c") 0] (by rfl)
    (fun k hk => by
      have hk0 : k = 0 := by simp at hk; omega
      subst hk0
      exact ⟨"class", some "c", 0, rfl, rfl⟩)
    (Or.inr ⟨by simp, .text "hi", rfl, rfl⟩)
  refine ⟨h.1.trans (by rfl), ?_⟩
  have h2 := h.2.1
    (fun f hf => by
      simp at hf
      exact ⟨"class", some "c", 0, hf, by decide, by decide, by decide, by decide⟩)
    (by decide)
  exact h2

/-! ## Claim theorem: C3 -/

theorem applyEditStep_inv (fuel componentId childIndex : Nat) (edits : List Edit)
    (frames : List Frame) (s s' : WalkState)
    (h : applyEditStep fuel componentId childIndex edits frames s = .ok s')
    (hinv : walkInv childIndex s) : walkInv childIndex s' := by
  obtain ⟨hd, hc⟩ := hinv
  unfold applyEditStep at h
  split at h
  · exact absurd h (by simp)
  · rename_i edit hedit
    cases edit
    all_goals simp only [] at h
    -- prependFrame
    · repeat' split at h
      all_goals first
        | (injection h with h2; subst h2; exact ⟨hd, hc⟩)
        | injection h
    -- removeFrame
    · repeat' split at h
      all_goals first
        | (injection h with h2; subst h2; exact ⟨hd, hc⟩)
        | injection h
    -- setAttribute
    · repeat' split at h
      all_goals first
        | (injection h with h2; subst h2; exact ⟨hd, hc⟩)
        | injection h
    -- removeAttribute
    · repeat' split at h
      all_goals first
        | (injection h with h2; subst h2; exact ⟨hd, hc⟩)
        | injection h
    -- updateText
    · repeat' split at h
      all_goals first
        | (injection h with h2; subst h2; exact ⟨hd, hc⟩)
        | injection h
    -- stepIn
    · injection h with h2
      subst h2
      refine ⟨?_, fun hz => ?_⟩
      · simp only [List.length_append, List.length_cons, List.length_nil]
        push_cast
        omega
      · exfalso
        simp only [] at hz
        omega
    -- stepOut
    · split at h
      · exact absurd h (by simp)
      · rename_i a l hp
        injection h with h2
        subst h2
        refine ⟨?_, fun hz => ?_⟩
        · simp only [List.length_dropLast]
          rw [hp] at hd ⊢
          simp at hd ⊢
          omega
        · simp only [] at hz ⊢
          rw [if_pos hz]

theorem applyEditsLoop_inv (fuel componentId childIndex : Nat) (edits : List Edit)
    (frames : List Frame) :
    ∀ count s s',
      applyEditsLoop fuel componentId childIndex edits frames count s = .ok s' →
      walkInv childIndex s → walkInv childIndex s' := by
  intro count
  induction count with
  | zero =>
    intro s s' h hinv
    rw [applyEditsLoop] at h
    injection h with h2
    subst h2
    exact hinv
  | succ count ih =>
    intro s s' h hinv
    rw [applyEditsLoop] at h
    split at h
    · exact absurd h (by simp)
    · rename_i s1 hstep
      exact ih _ _ h (applyEditStep_inv _ _ _ _ _ _ _ hstep hinv)

/-- C3: cursor bookkeeping of the edit-script walk.  A `stepIn` edit moves
the container to the child at `childIndexAtCurrentDepth + siblingIndex`,
increments the depth, and resets the per-depth child index to 0; a
`stepOut` edit moves the container to its parent, decrements the depth,
and sets the per-depth child index to the original start index when the
resulting depth is 0 and to 0 otherwise; consequently every walk segment
that starts in a state satisfying the cursor invariant (as the walk's
initial state does) and ends back at depth 0 — in particular, the segment
between a matched `stepIn`/`stepOut` pair entered from depth 0 — has the
original depth-0 child index restored, no matter how many siblings were
inserted or removed in between. -/
theorem stepInOut_cursor (fuel componentId childIndex : Nat) (edits : List Edit)
    (frames : List Frame) (s : WalkState) :
    (∀ siblingIndex, edits[s.editIndex]? = some (.stepIn siblingIndex) →
      applyEditStep fuel componentId childIndex edits frames s
        = .ok { s with
                path := s.path ++ [s.childIndexAtCurrentDepth + siblingIndex],
                currentDepth := s.currentDepth + 1,
                childIndexAtCurrentDepth := 0,
                editIndex := s.editIndex + 1 }) ∧
    (edits[s.editIndex]? = some .stepOut → s.path ≠ [] →
      applyEditStep fuel componentId childIndex edits frames s
        = .ok { s with
                path := s.path.dropLast,
                currentDepth := s.currentDepth - 1,
                childIndexAtCurrentDepth :=
                  if s.currentDepth - 1 = 0 then childIndex else 0,
                editIndex := s.editIndex + 1 }) ∧
    (∀ count s',
      applyEditsLoop fuel componentId childIndex edits frames count s = .ok s' →
      walkInv childIndex s → s'.currentDepth = 0 →
      s'.childIndexAtCurrentDepth = childIndex) := by
  refine ⟨?_, ?_, ?_⟩
  · intro siblingIndex hedit
    unfold applyEditStep
    rw [hedit]
  · intro hedit hne
    unfold applyEditStep
    rw [hedit]
    simp only []
    cases hp : s.path with
    | nil => exact absurd hp hne
    | cons a l => rfl
  · intro count s' h hinv hdepth
    exact (applyEditsLoop_inv fuel componentId childIndex edits frames count s s' h hinv).2
      hdepth

/-- C3 witness: walking `[stepIn 0, prependFrame 0 0, stepOut]` from start
child index 1 — the insertion inside the pair notwithstanding — ends back
at depth 0 with child index 1 restored, and the `stepIn` step updates the
cursor exactly as claimed. -/
theorem stepInOut_cursor_witness :
    applyEditStep 3 7 1 [.stepIn 0, .prependFrame 0 0, .stepOut] [.text "y"]
        ⟨⟨[], 100⟩, .element 0 "DIV" emptyProps
            [.text 9 "x", .element 1 "SPAN" emptyProps []], [], 0, 1, 0, 0⟩
      = .ok ⟨⟨[], 100⟩, .element 0 "DIV" emptyProps
            [.text 9 "x", .element 1 "SPAN" emptyProps []], [1], 1, 0, 0, 1⟩ ∧
    (⟨⟨[], 101⟩, .element 0 "DIV" emptyProps
        [.text 9 "x", .element 1 "SPAN" emptyProps [.text 100 "y"]], [], 0, 1, 0, 3⟩
        : WalkState).childIndexAtCurrentDepth = 1 := by
  have h := stepInOut_cursor 3 7 1 [.stepIn 0, .prependFrame 0 0, .stepOut] [.text "y"]
    ⟨⟨[], 100⟩, .element 0 "DIV" emptyProps
      [.text 9 "x", .element 1 "SPAN" emptyProps []], [], 0, 1, 0, 0⟩
  refine ⟨?_, ?_⟩
  · exact (h.1 0 (by rfl)).trans (by rfl)
  · exact h.2.2 3
      ⟨⟨[], 101⟩, .element 0 "DIV" emptyProps
        [.text 9 "x", .element 1 "SPAN" emptyProps [.text 100 "y"]], [], 0, 1, 0, 3⟩
      (by rfl) ⟨rfl, fun _ => rfl⟩ rfl

/-! ## Helper lemmas for the top-level update (C1) -/

theorem setNodeAt_deep_topCount (i : Nat) (p : List Nat) (root m root' : DomNode)
    (h : setNodeAt root (i :: p) m = some root') :
    topChildCount root' = topChildCount root := by
  unfold setNodeAt at h
  split at h
  · rename_i id tag pr cs
    split at h
    · rename_i c hc
      cases hs : setNodeAt c p m with
      | none => rw [hs] at h; simp at h
      | some c' =>
        rw [hs] at h
        simp at h
        subst h
        simp [topChildCount]
    · simp at h
  · simp at h

theorem setChildrenAt_deep_topCount (i : Nat) (p : List Nat) (root : DomNode)
    (cs : List DomNode) (root' : DomNode)
    (h : setChildrenAt root (i :: p) cs = some root') :
    topChildCount root' = topChildCount root := by
  unfold setChildrenAt at h
  split at h
  · exact setNodeAt_deep_topCount i p root _ root' h
  · simp at h

theorem setChildrenAt_nil (root : DomNode) (cs : List DomNode) (root' : DomNode)
    (h : setChildrenAt root [] cs = some root') :
    topChildCount root' = cs.length := by
  unfold setChildrenAt at h
  split at h
  · rename_i id tag pr cs0
    unfold setNodeAt at h
    simp at h
    subst h
    simp [topChildCount]
  · simp at h

theorem getChildrenAt_nil (root : DomNode) (cs : List DomNode)
    (h : getChildrenAt root [] = some cs) : topChildCount root = cs.length := by
  cases root <;> simp [getChildrenAt, getNodeAt, DomNode.childrenOf?] at h
  subst h
  simp [topChildCount]

theorem applyEditStep_count (fuel componentId childIndex : Nat) (edits : List Edit)
    (frames : List Frame) (s s' : WalkState)
    (h : applyEditStep fuel componentId childIndex edits frames s = .ok s')
    (hd : s.currentDepth = s.path.length) :
    s'.currentDepth = s'.path.length ∧
    (topChildCount s'.root : Int) - s'.topLevelNodeCountChange
      = (topChildCount s.root : Int) - s.topLevelNodeCountChange := by
  unfold applyEditStep at h
  split at h
  · exact absurd h (by simp)
  · rename_i edit hedit
    cases edit
    all_goals simp only [] at h
    -- prependFrame
    · split at h
      · exact absurd h (by simp)
      · rename_i cs hcs
        split at h
        · exact absurd h (by simp)
        · rename_i st1 cs1 n1 hins
          split at h
          · exact absurd h (by simp)
          · rename_i root1 hset
            injection h with h2
            subst h2
            refine ⟨hd, ?_⟩
            have hlen := (insert_length fuel).1 _ _ _ _ _ _ _ _ _ hins
            cases hp : s.path with
            | nil =>
              rw [hp] at hcs hset hd
              have h1 := getChildrenAt_nil s.root cs hcs
              have h2 := setChildrenAt_nil s.root cs1 root1 hset
              have hz : s.currentDepth = 0 := by rw [hd]; rfl
              simp only [topChildCount] at h1 h2 ⊢
              rw [if_pos hz, h2, h1]
              omega
            | cons i p =>
              rw [hp] at hcs hset hd
              have h2 := setChildrenAt_deep_topCount i p s.root cs1 root1 hset
              simp only [List.length_cons] at hd
              have hz : ¬ s.currentDepth = 0 := by rw [hd]; omega
              rw [if_neg hz, h2]
    -- removeFrame
    · split at h
      · exact absurd h (by simp)
      · rename_i cs hcs
        split at h
        · exact absurd h (by simp)
        · rename_i cs1 hrem
          split at h
          · exact absurd h (by simp)
          · rename_i root1 hset
            injection h with h2
            subst h2
            refine ⟨hd, ?_⟩
            simp only []
            unfold removeNodeFromDOM at hrem
            split at hrem
            · rename_i hidx
              injection hrem with hrem2
              subst hrem2
              have hlen := List.length_eraseIdx_add_one hidx
              cases hp : s.path with
              | nil =>
                rw [hp] at hcs hset hd
                have h1 := getChildrenAt_nil s.root cs hcs
                have h2 := setChildrenAt_nil s.root _ root1 hset
                have hz : s.currentDepth = 0 := by rw [hd]; rfl
                rw [if_pos hz, h2, h1]
                omega
              | cons i p =>
                rw [hp] at hcs hset hd
                have h2 := setChildrenAt_deep_topCount i p s.root _ root1 hset
                simp only [List.length_cons] at hd
                have hz : ¬ s.currentDepth = 0 := by rw [hd]; omega
                rw [if_neg hz, h2]
            · exact absurd hrem (by simp)
    -- setAttribute
    · split at h
      · exact absurd h (by simp)
      · rename_i cs hcs
        split at h
        · rename_i id tag pr kids hnode
          split at h
          · exact absurd h (by simp)
          · rename_i frame hframe
            split at h
            · exact absurd h (by simp)
            · rename_i st1 pr1 hap
              split at h
              · exact absurd h (by simp)
              · rename_i root1 hset
                injection h with h2
                subst h2
                refine ⟨hd, ?_⟩
                cases hp : s.path with
                | nil =>
                  rw [hp] at hcs hset
                  have h1 := getChildrenAt_nil s.root cs hcs
                  have h2 := setChildrenAt_nil s.root _ root1 hset
                  rw [h2, List.length_set, h1]
                | cons i p =>
                  rw [hp] at hcs hset
                  have h2 := setChildrenAt_deep_topCount i p s.root _ root1 hset
                  rw [h2]
        · exact absurd h (by simp)
    -- removeAttribute
    · split at h
      · exact absurd h (by simp)
      · rename_i cs hcs
        split at h
        · rename_i id tag pr kids hnode
          split at h
          · exact absurd h (by simp)
          · rename_i root1 hset
            injection h with h2
            subst h2
            refine ⟨hd, ?_⟩
            cases hp : s.path with
            | nil =>
              rw [hp] at hcs hset
              have h1 := getChildrenAt_nil s.root cs hcs
              have h2 := setChildrenAt_nil s.root _ root1 hset
              rw [h2, List.length_set, h1]
            | cons i p =>
              rw [hp] at hcs hset
              have h2 := setChildrenAt_deep_topCount i p s.root _ root1 hset
              rw [h2]
        · exact absurd h (by simp)
    -- updateText
    · split at h
      · exact absurd h (by simp)
      · rename_i cs hcs
        split at h
        · rename_i id content hnode
          split at h
          · rename_i content1 hframe
            split at h
            · exact absurd h (by simp)
            · rename_i root1 hset
              injection h with h2
              subst h2
              refine ⟨hd, ?_⟩
              cases hp : s.path with
              | nil =>
                rw [hp] at hcs hset
                have h1 := getChildrenAt_nil s.root cs hcs
                have h2 := setChildrenAt_nil s.root _ root1 hset
                rw [h2, List.length_set, h1]
              | cons i p =>
                rw [hp] at hcs hset
                have h2 := setChildrenAt_deep_topCount i p s.root _ root1 hset
                rw [h2]
          · exact absurd h (by simp)
        · exact absurd h (by simp)
    -- stepIn
    · injection h with h2
      subst h2
      refine ⟨?_, rfl⟩
      simp only [List.length_append, List.length_cons, List.length_nil]
      push_cast
      omega
    -- stepOut
    · split at h
      · exact absurd h (by simp)
      · rename_i a l hp
        injection h with h2
        subst h2
        refine ⟨?_, rfl⟩
        simp only [List.length_dropLast]
        rw [hp] at hd ⊢
        simp only [List.length_cons] at hd ⊢
        push_cast
        omega

theorem applyEditsLoop_count (fuel componentId childIndex : Nat) (edits : List Edit)
    (frames : List Frame) :
    ∀ count s s',
      applyEditsLoop fuel componentId childIndex edits frames count s = .ok s' →
      s.currentDepth = s.path.length →
      s'.currentDepth = s'.path.length ∧
      (topChildCount s'.root : Int) - s'.topLevelNodeCountChange
        = (topChildCount s.root : Int) - s.topLevelNodeCountChange := by
  intro count
  induction count with
  | zero =>
    intro s s' h hd
    rw [applyEditsLoop] at h
    injection h with h2
    subst h2
    exact ⟨hd, rfl⟩
  | succ count ih =>
    intro s s' h hd
    rw [applyEditsLoop] at h
    split at h
    · exact absurd h (by simp)
    · rename_i s1 hstep
      obtain ⟨hd1, he1⟩ := applyEditStep_count fuel componentId childIndex edits frames
        s s1 hstep hd
      obtain ⟨hd2, he2⟩ := ih s1 s' h hd1
      exact ⟨hd2, by omega⟩

theorem applyEdits_count (fuel componentId : Nat) (st : RState) (parent : DomNode)
    (childIndex : Nat) (edits : List Edit) (editsOffset editsLength : Nat)
    (frames : List Frame) (st₂ : RState) (parent' : DomNode) (delta : Int)
    (h : applyEdits fuel componentId st parent childIndex edits editsOffset editsLength
        frames = .ok (st₂, parent', delta)) :
    (topChildCount parent' : Int) = topChildCount parent + delta := by
  unfold applyEdits at h
  split at h
  · exact absurd h (by simp)
  · rename_i s hloop
    injection h with h2
    obtain ⟨-, hcount⟩ := applyEditsLoop_count fuel componentId childIndex edits frames
      editsLength _ s hloop rfl
    simp only [Prod.mk.injEq] at h2
    obtain ⟨-, h4, h5⟩ := h2
    subst h4
    subst h5
    simp only [topChildCount] at hcount ⊢
    omega

theorem getElem_append_cons (A : List DomNode) (b : DomNode) (r : List DomNode) :
    (A ++ b :: r)[A.length]? = some b := by
  induction A with
  | nil => simp
  | cons a A ih => simpa using ih

theorem getElem_append_cons_succ (A : List DomNode) (b c : DomNode) (r : List DomNode) :
    (A ++ b :: c :: r)[A.length + 1]? = some c := by
  induction A with
  | nil => simp
  | cons a A ih => simpa using ih

theorem eraseIdx_append_cons_succ (A : List DomNode) (b : DomNode) (r : List DomNode) :
    (A ++ b :: r).eraseIdx (A.length + 1) = A ++ b :: r.eraseIdx 0 := by
  induction A with
  | nil => rfl
  | cons a A ih =>
    simp only [List.cons_append, List.length_cons, List.eraseIdx_cons_succ, ih]

theorem set_append_cons (A : List DomNode) (b c : DomNode) (r : List DomNode) :
    (A ++ b :: r).set A.length c = A ++ c :: r := by
  induction A with
  | nil => rfl
  | cons a A ih =>
    simp only [List.cons_append, List.length_cons, List.set_cons_succ, ih]

theorem moveIntoWrapper_shape :
    ∀ (count : Nat) (A : List DomNode) (wid : Nat) (tag : String) (pr : ElemProps)
      (kids rest cs' : List DomNode),
      moveIntoWrapper count (A ++ .element wid tag pr kids :: rest) A.length = .ok cs' →
      cs' = A ++ .element wid tag pr (kids ++ rest.take count) :: rest.drop count ∧
      count ≤ rest.length := by
  intro count
  induction count with
  | zero =>
    intro A wid tag pr kids rest cs' h
    rw [moveIntoWrapper] at h
    injection h with h2
    subst h2
    simp
  | succ count ih =>
    intro A wid tag pr kids rest cs' h
    rw [moveIntoWrapper] at h
    cases rest with
    | nil =>
      have hnone : (A ++ DomNode.element wid tag pr kids :: ([] : List DomNode))[A.length + 1]?
          = none := by
        rw [List.getElem?_eq_none]
        simp
      rw [hnone] at h
      simp at h
    | cons nd rest' =>
      rw [getElem_append_cons_succ A (.element wid tag pr kids) nd rest'] at h
      simp only [] at h
      rw [eraseIdx_append_cons_succ A (.element wid tag pr kids) (nd :: rest')] at h
      simp only [List.eraseIdx_cons_zero] at h
      rw [getElem_append_cons A (.element wid tag pr kids) rest'] at h
      simp only [] at h
      rw [set_append_cons A (.element wid tag pr kids)
        (.element wid tag pr (kids ++ [nd])) rest'] at h
      obtain ⟨heq, hle⟩ := ih A wid tag pr (kids ++ [nd]) rest' cs' h
      constructor
      · rw [heq]
        simp
      · simp
        omega

theorem moveIntoWrapper_out_of_range :
    ∀ (count : Nat) (cs : List DomNode) (childIndex : Nat) (cs' : List DomNode),
      cs.length ≤ childIndex → moveIntoWrapper count cs childIndex = .ok cs' →
      count = 0 ∧ cs' = cs := by
  intro count cs childIndex cs' hle h
  cases count with
  | zero =>
    rw [moveIntoWrapper] at h
    injection h with h2
    exact ⟨rfl, h2.symm⟩
  | succ count =>
    rw [moveIntoWrapper] at h
    have hnone : cs[childIndex + 1]? = none := by
      rw [List.getElem?_eq_none]
      omega
    rw [hnone] at h
    simp at h

theorem getNodeAt_setNodeAt :
    ∀ (path : List Nat) (root m root' : DomNode),
      setNodeAt root path m = some root' → getNodeAt root' path = some m := by
  intro path
  induction path with
  | nil =>
    intro root m root' h
    unfold setNodeAt at h
    injection h with h2
    subst h2
    rfl
  | cons i p ih =>
    intro root m root' h
    unfold setNodeAt at h
    split at h
    · rename_i id tag pr cs
      split at h
      · rename_i c hc
        cases hs : setNodeAt c p m with
        | none => rw [hs] at h; simp at h
        | some c' =>
          rw [hs] at h
          simp at h
          subst h
          unfold getNodeAt
          simp only []
          have hlt : i < cs.length := by
            by_contra hge
            rw [List.getElem?_eq_none (by omega)] at hc
            exact absurd hc (by simp)
          rw [List.getElem?_set_eq_of_lt c' (by simpa using hlt)]
          simp only []
          exact ih c m c' hs
      · simp at h
    · simp at h

theorem getChildrenAt_setChildrenAt (path : List Nat) (root : DomNode)
    (cs : List DomNode) (root' : DomNode)
    (h : setChildrenAt root path cs = some root') :
    getChildrenAt root' path = some cs := by
  unfold setChildrenAt at h
  split at h
  · have hg := getNodeAt_setNodeAt path root _ root' h
    unfold getChildrenAt
    rw [hg]
    rfl
  · simp at h

theorem insertNodeIntoDOM_take_drop (node : DomNode) (cs : List DomNode) (i : Nat) :
    insertNodeIntoDOM node cs i = cs.take i ++ node :: cs.drop i := by
  unfold insertNodeIntoDOM
  split
  · rename_i hge
    rw [List.take_of_length_le (by omega), List.drop_eq_nil_of_le (by omega)]
  · rfl

/-! ## Claim theorem: C1 -/

/-- Specification of `updateComponentFinalize`: a successful finalize run
resolves the parent container, runs the edit walk on it, and its net
effect on the container's top-level child count is exactly the returned
`topLevelNodeCountChange`; a wrapper location keeps the renderer state
(the wrapper stays the recorded location); otherwise a new count of 1
records the single node at the cursor start as the bare-node location,
and any other new count synthesizes a fresh `BLAZOR-COMPONENT` wrapper at
the cursor start, moves exactly that many following siblings into it, and
records it. -/
theorem updateComponentFinalize_spec (fuel componentId : Nat) (st : RState)
    (root₁ : DomNode) (parentPath : List Nat) (childIndex nodeCount : Nat)
    (isWrapped : Bool) (edits : List Edit) (editsOffset editsLength : Nat)
    (frames : List Frame) (root' : DomNode) (st' : RState)
    (h : updateComponentFinalize fuel componentId st root₁ parentPath childIndex
        nodeCount isWrapped edits editsOffset editsLength frames = .ok (root', st')) :
    ∃ parent st₂ parent₂ delta,
      getNodeAt root₁ parentPath = some parent ∧
      applyEdits fuel componentId st parent childIndex edits editsOffset editsLength
        frames = .ok (st₂, parent₂, delta) ∧
      (topChildCount parent₂ : Int) = topChildCount parent + delta ∧
      (isWrapped = true →
        st' = st₂ ∧ setNodeAt root₁ parentPath parent₂ = some root') ∧
      (isWrapped = false → (nodeCount : Int) + delta = 1 →
        ∃ cs₂ nd, parent₂.childrenOf? = some cs₂ ∧ cs₂[childIndex]? = some nd ∧
          st'.locations = bindLoc st₂.locations componentId nd.nodeId ∧
          st'.nextId = st₂.nextId ∧
          setNodeAt root₁ parentPath parent₂ = some root') ∧
      (isWrapped = false → (nodeCount : Int) + delta ≠ 1 →
        ∃ cs₂ root₂, parent₂.childrenOf? = some cs₂ ∧
          setNodeAt root₁ parentPath parent₂ = some root₂ ∧
          st'.locations = bindLoc st₂.locations componentId st₂.nextId ∧
          st'.nextId = st₂.nextId + 1 ∧
          getChildrenAt root' parentPath
            = some (cs₂.take (min childIndex cs₂.length) ++
                .element st₂.nextId "BLAZOR-COMPONENT" emptyProps
                  ((cs₂.drop (min childIndex cs₂.length)).take
                    (((nodeCount : Int) + delta).toNat)) ::
                cs₂.drop (min childIndex cs₂.length + ((nodeCount : Int) + delta).toNat)) ∧
          ((nodeCount : Int) + delta).toNat
            ≤ (cs₂.drop (min childIndex cs₂.length)).length) := by
  unfold updateComponentFinalize at h
  split at h
  · exact absurd h (by simp)
  · rename_i parent hparent
    split at h
    · exact absurd h (by simp)
    · rename_i st₂ parent₂ delta happly
      split at h
      · exact absurd h (by simp)
      · rename_i root₂ hset
        simp only [] at h
        have hcount := applyEdits_count fuel componentId st parent childIndex edits
          editsOffset editsLength frames st₂ parent₂ delta happly
        refine ⟨parent, st₂, parent₂, delta, hparent, happly, hcount, ?_, ?_, ?_⟩
        · intro hw
          rw [hw] at h
          simp only [if_pos rfl] at h
          injection h with h2
          injection h2 with h3 h4
          exact ⟨h4.symm, h3 ▸ hset⟩
        · intro hw hnc
          rw [hw] at h
          simp only [Bool.false_eq_true, if_false] at h
          rw [if_pos hnc] at h
          split at h
          · exact absurd h (by simp)
          · rename_i cs₂ hcs₂
            split at h
            · exact absurd h (by simp)
            · rename_i nd hnd
              injection h with h2
              injection h2 with h3 h4
              exact ⟨cs₂, nd, hcs₂, hnd, by rw [← h4], by rw [← h4], h3 ▸ hset⟩
        · intro hw hnc
          rw [hw] at h
          simp only [Bool.false_eq_true, if_false] at h
          rw [if_neg hnc] at h
          split at h
          · exact absurd h (by simp)
          · rename_i cs₂ hcs₂
            split at h
            · exact absurd h (by simp)
            · rename_i cs₃ hmove
              split at h
              · exact absurd h (by simp)
              · rename_i root₃ hset₃
                injection h with h2
                injection h2 with h3 h4
                have hupper : createElement st₂.nextId "blazor-component"
                    = DomNode.element st₂.nextId "BLAZOR-COMPONENT" emptyProps [] := rfl
                rw [insertNodeIntoDOM_take_drop, hupper] at hmove
                have hg := getChildrenAt_setChildrenAt parentPath root₂ cs₃ root₃ hset₃
                rw [h3] at hg
                refine ⟨cs₂, root₂, hcs₂, hset, by rw [← h4], by rw [← h4], ?_⟩
                by_cases hci : childIndex ≤ cs₂.length
                · have hmin : min childIndex cs₂.length = childIndex := by omega
                  rw [hmin]
                  have hAlen : (cs₂.take childIndex).length = childIndex := by
                    simp
                    omega
                  obtain ⟨A, hA⟩ : ∃ A, cs₂.take childIndex = A := ⟨_, rfl⟩
                  obtain ⟨R, hR⟩ : ∃ R, cs₂.drop childIndex = R := ⟨_, rfl⟩
                  rw [hA] at hAlen
                  rw [hA, hR] at hmove
                  rw [← hAlen] at hmove
                  obtain ⟨hshape, hbound⟩ := moveIntoWrapper_shape
                    ((↑nodeCount + delta).toNat) A st₂.nextId "BLAZOR-COMPONENT"
                    emptyProps [] R cs₃ hmove
                  constructor
                  · rw [hg, hshape, hA, hR]
                    have hdrop : cs₂.drop (childIndex + (↑nodeCount + delta).toNat)
                        = R.drop ((↑nodeCount + delta).toNat) := by
                      rw [← hR, List.drop_drop]
                    rw [hdrop]
                    simp
                  · rw [hR]
                    exact hbound
                · have hlen2 : (cs₂.take childIndex ++
                      DomNode.element st₂.nextId "BLAZOR-COMPONENT" emptyProps []
                        :: cs₂.drop childIndex).length ≤ childIndex := by
                    simp
                    omega
                  obtain ⟨hcnt0, hcs₃⟩ := moveIntoWrapper_out_of_range
                    ((↑nodeCount + delta).toNat) _ childIndex cs₃ hlen2 hmove
                  have hmin : min childIndex cs₂.length = cs₂.length := by omega
                  rw [hmin, hcnt0]
                  constructor
                  · rw [hg, hcs₃]
                    rw [List.take_of_length_le (by omega),
                      List.drop_eq_nil_of_le (by omega),
                      List.take_of_length_le (by omega),
                      List.drop_eq_nil_of_le (by omega)]
                    simp
                  · simp

/-- C1: for every well-formed update applied via `updateComponent` — any
run that returns successfully — the component's location is resolved and
classified (marker: occupies 0 nodes and is removed; wrapper: occupies its
child count; bare node: occupies 1), the edit walk changes the parent
container's top-level node count by exactly the returned `topLevelDelta`,
so the new top-level count equals occupied + delta; a wrapper location is
left recorded unchanged (the wrapper is never removed once created); a
non-wrapper location whose new count is 1 records the single resulting
node at the cursor start as the bare-node location; and a non-wrapper
location with any other new count creates a new wrapper element at the
cursor start position, moves exactly that many following sibling nodes
into it, and records the wrapper as the location. -/
theorem updateComponent_spec (fuel : Nat) (root : DomNode) (st : RState)
    (componentId : Nat) (edits : List Edit) (editsOffset editsLength : Nat)
    (frames : List Frame) (root' : DomNode) (st' : RState)
    (h : updateComponent fuel root st componentId edits editsOffset editsLength frames
          = .ok (root', st')) :
    ∃ markerId path marker parentPath childIndex nodeCount isWrapped
      root₁ parent st₂ parent₂ delta,
      lookupLoc st.locations componentId = some markerId ∧
      findPath markerId root = some path ∧
      getNodeAt root path = some marker ∧
      (match marker with
        | .comment _ _ =>
          isWrapped = false ∧ nodeCount = 0 ∧
          path.getLast? = some childIndex ∧ parentPath = path.dropLast ∧
          ∃ cs₀, getChildrenAt root parentPath = some cs₀ ∧
            setChildrenAt root parentPath (cs₀.eraseIdx childIndex) = some root₁
        | .element _ tag _ wcs =>
          if tag = "BLAZOR-COMPONENT" then
            isWrapped = true ∧ nodeCount = wcs.length ∧ parentPath = path ∧
            childIndex = 0 ∧ root₁ = root
          else
            isWrapped = false ∧ nodeCount = 1 ∧
            path.getLast? = some childIndex ∧ parentPath = path.dropLast ∧ root₁ = root
        | .text _ _ =>
          isWrapped = false ∧ nodeCount = 1 ∧
          path.getLast? = some childIndex ∧ parentPath = path.dropLast ∧ root₁ = root) ∧
      getNodeAt root₁ parentPath = some parent ∧
      applyEdits fuel componentId st parent childIndex edits editsOffset editsLength
        frames = .ok (st₂, parent₂, delta) ∧
      (topChildCount parent₂ : Int) = topChildCount parent + delta ∧
      (isWrapped = true →
        st' = st₂ ∧ setNodeAt root₁ parentPath parent₂ = some root' ∧
        (topChildCount parent₂ : Int) = (nodeCount : Int) + delta) ∧
      (isWrapped = false → (nodeCount : Int) + delta = 1 →
        ∃ cs₂ nd, parent₂.childrenOf? = some cs₂ ∧ cs₂[childIndex]? = some nd ∧
          st'.locations = bindLoc st₂.locations componentId nd.nodeId ∧
          st'.nextId = st₂.nextId ∧
          setNodeAt root₁ parentPath parent₂ = some root') ∧
      (isWrapped = false → (nodeCount : Int) + delta ≠ 1 →
        ∃ cs₂ root₂, parent₂.childrenOf? = some cs₂ ∧
          setNodeAt root₁ parentPath parent₂ = some root₂ ∧
          st'.locations = bindLoc st₂.locations componentId st₂.nextId ∧
          st'.nextId = st₂.nextId + 1 ∧
          getChildrenAt root' parentPath
            = some (cs₂.take (min childIndex cs₂.length) ++
                .element st₂.nextId "BLAZOR-COMPONENT" emptyProps
                  ((cs₂.drop (min childIndex cs₂.length)).take
                    (((nodeCount : Int) + delta).toNat)) ::
                cs₂.drop (min childIndex cs₂.length + ((nodeCount : Int) + delta).toNat)) ∧
          ((nodeCount : Int) + delta).toNat
            ≤ (cs₂.drop (min childIndex cs₂.length)).length) := by
  unfold updateComponent at h
  split at h
  · exact absurd h (by simp)
  · rename_i markerId hlook
    split at h
    · exact absurd h (by simp)
    · rename_i path hpath
      split at h
      · exact absurd h (by simp)
      · rename_i marker hmarker
        cases marker with
        | comment mid mtext =>
          simp only [] at h
          split at h
          · exact absurd h (by simp)
          · rename_i childIndex hlast
            split at h
            · exact absurd h (by simp)
            · rename_i cs₀ hcs₀
              split at h
              · exact absurd h (by simp)
              · rename_i root₁ hroot₁
                obtain ⟨parent, st₂, parent₂, delta, hparent, happly, hcount,
                  hwrap, hbare, hsynth⟩ := updateComponentFinalize_spec fuel componentId
                    st root₁ path.dropLast childIndex 0 false edits editsOffset
                    editsLength frames root' st' h
                exact ⟨markerId, path, .comment mid mtext, path.dropLast, childIndex,
                  0, false, root₁, parent, st₂, parent₂, delta, hlook, hpath, hmarker,
                  ⟨rfl, rfl, hlast, rfl, cs₀, hcs₀, hroot₁⟩, hparent, happly, hcount,
                  fun hff => absurd hff (by decide),
                  fun _ hnc => hbare rfl hnc,
                  fun _ hnc => hsynth rfl hnc⟩
        | element eid etag epr ecs =>
          simp only [] at h
          by_cases htag : etag = "BLAZOR-COMPONENT"
          · rw [if_pos htag] at h
            obtain ⟨parent, st₂, parent₂, delta, hparent, happly, hcount,
              hwrap, hbare, hsynth⟩ := updateComponentFinalize_spec fuel componentId
                st root path 0 ecs.length true edits editsOffset editsLength frames
                root' st' h
            have hpm : parent = DomNode.element eid etag epr ecs := by
              rw [hmarker] at hparent
              injection hparent with h2
              exact h2.symm
            refine ⟨markerId, path, .element eid etag epr ecs, path, 0, ecs.length,
              true, root, parent, st₂, parent₂, delta, hlook, hpath, hmarker,
              by simp only []; rw [if_pos htag]; refine ⟨?_, ?_, ?_, ?_, ?_⟩ <;> trivial,
              hparent, happly, hcount,
              fun _ => ⟨(hwrap rfl).1, (hwrap rfl).2, ?_⟩,
              fun hff => absurd hff (by decide),
              fun hff => absurd hff (by decide)⟩
            rw [hcount, hpm]
            simp [topChildCount]
          · rw [if_neg htag] at h
            split at h
            · exact absurd h (by simp)
            · rename_i childIndex hlast
              obtain ⟨parent, st₂, parent₂, delta, hparent, happly, hcount,
                hwrap, hbare, hsynth⟩ := updateComponentFinalize_spec fuel componentId
                  st root path.dropLast childIndex 1 false edits editsOffset
                  editsLength frames root' st' h
              exact ⟨markerId, path, .element eid etag epr ecs, path.dropLast,
                childIndex, 1, false, root, parent, st₂, parent₂, delta, hlook, hpath,
                hmarker,
                by simp only []; rw [if_neg htag]
                   exact ⟨by trivial, by trivial, hlast, by trivial, by trivial⟩,
                hparent, happly, hcount,
                fun hff => absurd hff (by decide),
                fun _ hnc => hbare rfl hnc,
                fun _ hnc => hsynth rfl hnc⟩
        | text tid ttext =>
          simp only [] at h
          split at h
          · exact absurd h (by simp)
          · rename_i childIndex hlast
            obtain ⟨parent, st₂, parent₂, delta, hparent, happly, hcount,
              hwrap, hbare, hsynth⟩ := updateComponentFinalize_spec fuel componentId
                st root path.dropLast childIndex 1 false edits editsOffset
                editsLength frames root' st' h
            exact ⟨markerId, path, .text tid ttext, path.dropLast, childIndex, 1,
              false, root, parent, st₂, parent₂, delta, hlook, hpath, hmarker,
              ⟨rfl, rfl, hlast, rfl, rfl⟩, hparent, happly, hcount,
              fun hff => absurd hff (by decide),
              fun _ hnc => hbare rfl hnc,
              fun _ hnc => hsynth rfl hnc⟩

/-- C1 witness: a component whose bare-node location re-renders from one
text node to three top-level nodes (occupied 1 + delta 2 = 3 ≠ 1) ends up
wrapped in a fresh `BLAZOR-COMPONENT` element holding exactly those three
nodes, which becomes the recorded location. -/
theorem updateComponent_spec_witness :
    updateComponent 10 (.element 0 "DIV" emptyProps [.text 1 "x"]) ⟨[(7, 1)], 2⟩ 7
        [.prependFrame 1 0, .prependFrame 2 1] 0 2 [.text "y", .text "z"]
      = .ok (.element 0 "DIV" emptyProps
          [.element 4 "BLAZOR-COMPONENT" emptyProps
            [.text 1 "x", .text 2 "y", .text 3 "z"]],
          ⟨[(7, 4)], 5⟩) ∧
    (∃ markerId path,
      lookupLoc ([(7, 1)] : List (Nat × Nat)) 7 = some markerId ∧
      findPath markerId (.element 0 "DIV" emptyProps [.text 1 "x"]) = some path) := by
  have h := updateComponent_spec 10 (.element 0 "DIV" emptyProps [.text 1 "x"])
    ⟨[(7, 1)], 2⟩ 7 [.prependFrame 1 0, .prependFrame 2 1] 0 2 [.text "y", .text "z"]
    (.element 0 "DIV" emptyProps
      [.element 4 "BLAZOR-COMPONENT" emptyProps
        [.text 1 "x", .text 2 "y", .text 3 "z"]])
    ⟨[(7, 4)], 5⟩ (by rfl)
  obtain ⟨mid, path, _, _, _, _, _, _, _, _, _, _, hlook, hpath, -⟩ := h
  exact ⟨by rfl, mid, path, hlook, hpath⟩
